import Mathlib

/-!
Verification of the bambu-rs connection/framing layer against its
specification.  The Rust sources are shallowly embedded: byte buffers become
`List Nat` (each element one byte), strings become `List Char` or `String`,
machine integers become `Nat` with explicit `% 2^w` where overflow matters,
and in-place buffer mutation becomes explicit state passing (each decoder
returns the emitted item together with the buffer contents after the call).
-/

set_option maxRecDepth 10000

namespace Bambu

/-! ## Camera codec (`src/camera/codec.rs`) -/

/-- JPEG start (`JPEG_START_MARKER`). -/
def JPEG_START_MARKER : List Nat := [0xff, 0xd8, 0xff, 0xe0]

/-- JPEG end (`JPEG_END_MARKER`). -/
def JPEG_END_MARKER : List Nat := [0xff, 0xd9]

/-- `haystack` begins with `needle` (an occurrence of `needle` at offset 0). -/
def beginsWith : List Nat → List Nat → Bool
  | [], _ => true
  | _ :: _, [] => false
  | n :: ns, h :: hs => n == h && beginsWith ns hs

/-- `find_subsequence` / `memmem::find`: offset of the first occurrence of
`needle` inside `haystack`, if any. -/
def find_subsequence (needle : List Nat) : List Nat → Option Nat
  | [] => if beginsWith needle [] then some 0 else none
  | a :: t =>
    if beginsWith needle (a :: t) then some 0
    else (find_subsequence needle t).map (· + 1)

/-- `decode_jpeg_packet`: scan for the first start marker, then the first end
marker after it; on success emit the inclusive `[start, end]` span and keep
only the bytes after the end marker.  The Rust function mutates `src` in
place; here the second component is the buffer contents after the call. -/
def decode_jpeg_packet (src : List Nat) : Option (List Nat) × List Nat :=
  match find_subsequence JPEG_START_MARKER src with
  | none => (none, src)
  | some start_idx =>
    let search_start := start_idx + JPEG_START_MARKER.length
    match find_subsequence JPEG_END_MARKER (src.drop search_start) with
    | none => (none, src)
    | some end_rel_idx =>
      let end_idx := search_start + end_rel_idx + JPEG_END_MARKER.length
      (some ((src.take end_idx).drop start_idx), src.drop end_idx)

/-- `u32::from_le_bytes` on a 4-byte slice. -/
def le32 (l : List Nat) : Nat := l.foldr (fun b acc => b + 256 * acc) 0

/-- `trim_end_matches('\0')` at byte level (the trimmed character `'\0'` is a
single byte in UTF-8, so trimming trailing NUL chars is trimming trailing
zero bytes). -/
def trimTrailingZeros (l : List Nat) : List Nat :=
  (l.reverse.dropWhile (· == 0)).reverse

/-- `decode_auth_packet`: if at least 80 bytes are buffered and the four
leading little-endian u32 fields are `64, 12288, 0, 0`, emit the two 32-byte
zero-padded fields (trailing NULs trimmed) and consume 80 bytes. -/
def decode_auth_packet (src : List Nat) : Option (List Nat × List Nat) × List Nat :=
  if 80 ≤ src.length then
    let magic_1 := le32 (src.take 4)
    let magic_2 := le32 ((src.drop 4).take 4)
    let zero_1 := le32 ((src.drop 8).take 4)
    let zero_2 := le32 ((src.drop 12).take 4)
    if magic_1 = 64 ∧ magic_2 = 12288 ∧ zero_1 = 0 ∧ zero_2 = 0 then
      let username := trimTrailingZeros ((src.drop 16).take 32)
      let access_code := trimTrailingZeros ((src.drop 48).take 32)
      (some (username, access_code), src.drop 80)
    else (none, src)
  else (none, src)

/-- `CameraPacket` (username/access code as UTF-8 byte lists). -/
inductive CameraPacket
  | Auth (username access_code : List Nat)
  | Jpeg (bytes : List Nat)
deriving DecidableEq

/-- `JpegCodec::decode` (`impl Decoder for JpegCodec`): auth packet first,
then JPEG framing; `(none, src)` is the "need more" outcome which leaves the
buffer untouched. -/
def JpegCodec.decode (src : List Nat) : Option CameraPacket × List Nat :=
  match decode_auth_packet src with
  | (some (username, access_code), rest) => (some (.Auth username access_code), rest)
  | (none, _) =>
    match decode_jpeg_packet src with
    | (some jpeg, rest) => (some (.Jpeg jpeg), rest)
    | (none, _) => (none, src)

/-- `u32::to_le_bytes`. -/
def u32le (n : Nat) : List Nat :=
  [n % 256, n / 256 % 256, n / 65536 % 256, n / 16777216 % 256]

/-- The 32-byte zero-padded field written by `JpegCodec::encode`: the first
`min 32 (length field)` bytes of the field, the rest zeros. -/
def pad32 (field : List Nat) : List Nat :=
  field.take 32 ++ List.replicate (32 - (field.take 32).length) 0

/-- `JpegCodec::encode` (`impl Encoder for JpegCodec`); the bytes appended to
`dst` (the Rust encoder always returns `Ok(())`). -/
def JpegCodec.encode : CameraPacket → List Nat
  | .Auth username access_code =>
      u32le 0x40 ++ u32le 0x3000 ++ u32le 0 ++ u32le 0 ++
        pad32 username ++ pad32 access_code
  | .Jpeg bytes => bytes

/-! ### Helper lemmas about `beginsWith` and `find_subsequence` -/

theorem beginsWith_iff_exists {n h : List Nat} :
    beginsWith n h = true ↔ ∃ t, h = n ++ t := by
  induction n generalizing h with
  | nil => simp [beginsWith]
  | cons a ns ih =>
    cases h with
    | nil => simp [beginsWith]
    | cons b hs =>
      simp only [beginsWith, Bool.and_eq_true, beq_iff_eq, ih, List.cons_append,
        List.cons.injEq]
      constructor
      · rintro ⟨rfl, t, rfl⟩; exact ⟨t, rfl, rfl⟩
      · rintro ⟨t, rfl, rfl⟩; exact ⟨rfl, t, rfl⟩

theorem beginsWith_length_le {n h : List Nat} (hb : beginsWith n h = true) :
    n.length ≤ h.length := by
  obtain ⟨t, rfl⟩ := beginsWith_iff_exists.1 hb
  simp

theorem beginsWith_append_self (n t : List Nat) : beginsWith n (n ++ t) = true :=
  beginsWith_iff_exists.2 ⟨t, rfl⟩

/-- Appending bytes past position `length n` cannot create or destroy an
occurrence at offset 0. -/
theorem beginsWith_append_left {n a : List Nat} (c : List Nat)
    (hlen : n.length ≤ a.length) : beginsWith n (a ++ c) = beginsWith n a := by
  induction n generalizing a with
  | nil => simp [beginsWith]
  | cons x ns ih =>
    cases a with
    | nil => simp at hlen
    | cons b as =>
      simp only [List.cons_append, beginsWith, List.append_eq]
      rw [ih (by simpa using Nat.le_of_succ_le_succ hlen)]

theorem find_subsequence_eq_none_iff {needle hay : List Nat} :
    find_subsequence needle hay = none ↔
      ∀ j, ¬ beginsWith needle (hay.drop j) = true := by
  induction hay with
  | nil =>
    by_cases hb : beginsWith needle [] = true
    · rw [find_subsequence, if_pos hb]
      simp [hb]
    · rw [find_subsequence, if_neg hb]
      simp [hb]
  | cons a t ih =>
    by_cases hb : beginsWith needle (a :: t) = true
    · rw [find_subsequence, if_pos hb]
      constructor
      · intro hcontra; exact absurd hcontra (by simp)
      · intro hall; exact absurd hb (by simpa using hall 0)
    · rw [find_subsequence, if_neg hb]
      rw [Option.map_eq_none', ih]
      constructor
      · intro hall j
        cases j with
        | zero => simpa using hb
        | succ k => simpa using hall k
      · intro hall j; simpa using hall (j + 1)

theorem find_subsequence_eq_some_iff {needle hay : List Nat} {i : Nat} :
    find_subsequence needle hay = some i ↔
      beginsWith needle (hay.drop i) = true ∧
        ∀ j < i, ¬ beginsWith needle (hay.drop j) = true := by
  induction hay generalizing i with
  | nil =>
    by_cases hb : beginsWith needle [] = true
    · rw [find_subsequence, if_pos hb]
      simp only [Option.some.injEq, List.drop_nil]
      constructor
      · rintro rfl; exact ⟨hb, by omega⟩
      · rintro ⟨-, hmin⟩
        by_contra hne
        exact hmin 0 (by omega) hb
    · rw [find_subsequence, if_neg hb]
      simp [hb]
  | cons a t ih =>
    by_cases hb : beginsWith needle (a :: t) = true
    · rw [find_subsequence, if_pos hb]
      simp only [Option.some.injEq]
      constructor
      · rintro rfl; exact ⟨by simpa using hb, by omega⟩
      · rintro ⟨hocc, hmin⟩
        by_contra hne
        exact hmin 0 (by omega) (by simpa using hb)
    · rw [find_subsequence, if_neg hb]
      cases i with
      | zero =>
        simp only [List.drop_zero]
        constructor
        · intro hcontra
          obtain ⟨k, -, hk⟩ := Option.map_eq_some'.1 hcontra
          omega
        · rintro ⟨hocc, -⟩; exact absurd hocc hb
      | succ k =>
        constructor
        · intro hmap
          obtain ⟨k', hk', hkeq⟩ := Option.map_eq_some'.1 hmap
          have hkk : k' = k := by omega
          subst hkk
          obtain ⟨hocc, hmin⟩ := ih.1 hk'
          refine ⟨by simpa using hocc, ?_⟩
          intro j hj
          cases j with
          | zero => simpa using hb
          | succ j' => simpa using hmin j' (by omega)
        · rintro ⟨hocc, hmin⟩
          have ht : find_subsequence needle t = some k := by
            refine ih.2 ⟨by simpa using hocc, ?_⟩
            intro j hj
            simpa using hmin (j + 1) (by omega)
          simp [ht]

/-! ### Padding / trimming lemmas -/

theorem pad32_length (u : List Nat) : (pad32 u).length = 32 := by
  simp only [pad32, List.length_append, List.length_take, List.length_replicate]
  omega

theorem take_all_of_length_le {α : Type} {l : List α} {n : Nat} (h : l.length ≤ n) :
    l.take n = l := by
  induction l generalizing n with
  | nil => simp
  | cons a t ih =>
    cases n with
    | zero => simp at h
    | succ m => simp only [List.take_succ_cons, ih (by simpa using h)]

theorem pad32_eq_of_le {u : List Nat} (h : u.length ≤ 32) :
    pad32 u = u ++ List.replicate (32 - u.length) 0 := by
  simp [pad32, take_all_of_length_le h]

theorem trimTrailingZeros_append_replicate (u : List Nat) (k : Nat) :
    trimTrailingZeros (u ++ List.replicate k 0) = trimTrailingZeros u := by
  simp only [trimTrailingZeros, List.reverse_append, List.reverse_replicate]
  congr 1
  induction k with
  | zero => simp
  | succ m ih =>
    rw [List.replicate_succ, List.cons_append,
      List.dropWhile_cons_of_pos (by simp)]
    exact ih

theorem trimTrailingZeros_eq_self {u : List Nat} (h : u.getLast? ≠ some 0) :
    trimTrailingZeros u = u := by
  rcases hu : u.reverse with _ | ⟨a, t⟩
  · have : u = [] := by simpa using congrArg List.reverse hu
    simp [this, trimTrailingZeros]
  · have hlast : u.getLast? = some a := by
      rw [← List.head?_reverse, hu]; rfl
    have ha : a ≠ 0 := fun h0 => h (h0 ▸ hlast)
    have : trimTrailingZeros u = (a :: t).reverse := by
      simp [trimTrailingZeros, hu, List.dropWhile, ha]
    rw [this, ← hu, List.reverse_reverse]

/-! ### C10: the auth encoder is total, emits exactly 80 bytes, truncates -/

/-- **C10.** Encoding `CameraPacket::Auth` never fails (here: it is a total
function); the output is always exactly 80 bytes — the four little-endian u32
magic values `0x40, 0x3000, 0, 0` followed by two 32-byte zero-padded
fields — and over-long usernames or access codes are silently truncated to
their first 32 bytes rather than rejected. -/
theorem c10_auth_encode_total (username access_code : List Nat) :
    (JpegCodec.encode (.Auth username access_code)).length = 80 ∧
    JpegCodec.encode (.Auth username access_code) =
      [0x40, 0, 0, 0, 0, 0x30, 0, 0, 0, 0, 0, 0, 0, 0, 0, 0] ++
        (username.take 32 ++ List.replicate (32 - username.length) 0) ++
        (access_code.take 32 ++ List.replicate (32 - access_code.length) 0) ∧
    JpegCodec.encode (.Auth username access_code) =
      JpegCodec.encode (.Auth (username.take 32) (access_code.take 32)) := by
  refine ⟨?_, ?_, ?_⟩
  · simp only [JpegCodec.encode, List.length_append, pad32_length, u32le]
    simp
  · have hu : 32 - (username.take 32).length = 32 - username.length := by
      simp only [List.length_take]; omega
    have ha : 32 - (access_code.take 32).length = 32 - access_code.length := by
      simp only [List.length_take]; omega
    simp only [JpegCodec.encode, pad32, hu, ha, u32le]
    norm_num
  · simp only [JpegCodec.encode, pad32, List.take_take]
    norm_num

/-! ### C6: auth packet round-trip (corrected) -/

/-- **C6 (counterexample).** The claim "for all strings `u`, `a` of at most 32
bytes, encode-then-decode of `Auth{u, a}` yields exactly `Auth{u, a}`" fails
at `u = "\0"` (one NUL byte), `a = "1"`: the decoder trims the trailing NUL,
returning `Auth{"", "1"}`. -/
theorem c6_auth_roundtrip_counterexample :
    JpegCodec.decode (JpegCodec.encode (.Auth [0] [49])) =
      (some (.Auth [] [49]), []) ∧
    JpegCodec.decode (JpegCodec.encode (.Auth [0] [49])) ≠
      (some (.Auth [0] [49]), []) := by
  constructor <;> decide

/-- **C6 (amended).** For all byte strings `u`, `a` of at most 32 bytes each
*that do not end in a NUL byte*, encoding `CameraPacket::Auth{u, a}` produces
an 80-byte packet which decodes back to exactly `Auth{u, a}` (consuming the
whole packet); zero-length fields round-trip as empty strings. -/
theorem c6_auth_roundtrip (u a : List Nat)
    (hu : u.length ≤ 32) (ha : a.length ≤ 32)
    (hu0 : u.getLast? ≠ some 0) (ha0 : a.getLast? ≠ some 0) :
    (JpegCodec.encode (.Auth u a)).length = 80 ∧
    JpegCodec.decode (JpegCodec.encode (.Auth u a)) = (some (.Auth u a), []) := by
  have henc : JpegCodec.encode (.Auth u a) =
      64 :: 0 :: 0 :: 0 :: 0 :: 48 :: 0 :: 0 :: 0 :: 0 :: 0 :: 0 :: 0 :: 0 :: 0 :: 0 ::
        (pad32 u ++ pad32 a) := by
    simp only [JpegCodec.encode, u32le]
    norm_num
  have hlen : (JpegCodec.encode (.Auth u a)).length = 80 := by
    rw [henc]
    simp [pad32_length]
  refine ⟨hlen, ?_⟩
  have hfield : ∀ w : List Nat, w.length ≤ 32 → w.getLast? ≠ some 0 →
      trimTrailingZeros (pad32 w) = w := by
    intro w hw hw0
    rw [pad32_eq_of_le hw, trimTrailingZeros_append_replicate,
      trimTrailingZeros_eq_self hw0]
  have hauth : decode_auth_packet (JpegCodec.encode (.Auth u a)) =
      (some (u, a), []) := by
    rw [decode_auth_packet, if_pos (by rw [hlen])]
    rw [henc]
    simp only [List.take_succ_cons, List.drop_succ_cons, List.take_zero,
      List.drop_zero]
    rw [if_pos (by simp [le32])]
    have hpu : (pad32 u).take 32 = pad32 u :=
      take_all_of_length_le (le_of_eq (pad32_length u))
    have hpa : (pad32 a).take 32 = pad32 a :=
      take_all_of_length_le (le_of_eq (pad32_length a))
    have hdu : (pad32 u).drop 32 = [] :=
      List.drop_eq_nil_of_le (le_of_eq (pad32_length u))
    have hda : (pad32 a).drop 32 = [] :=
      List.drop_eq_nil_of_le (le_of_eq (pad32_length a))
    have hu16 : (pad32 u ++ pad32 a).take 32 = pad32 u := by
      rw [List.take_append_eq_append_take, pad32_length, hpu]
      simp
    have hu32 : (pad32 u ++ pad32 a).drop 32 = pad32 a := by
      rw [List.drop_append_eq_append_drop, pad32_length, hdu]
      simp
    have hu64 : (pad32 u ++ pad32 a).drop 64 = [] := by
      have h1 : (pad32 u).drop 64 = [] :=
        List.drop_eq_nil_of_le (by rw [pad32_length]; omega)
      rw [List.drop_append_eq_append_drop, pad32_length, h1]
      norm_num [hda]
    rw [hu16, hu32, hpa, hu64, hfield u hu hu0, hfield a ha ha0]
  simp only [JpegCodec.decode, hauth]

/-- **C6 (witness).** Instantiation of the amended round-trip at
`u = "bblp"`, `a = "1234"` (UTF-8 bytes). -/
theorem c6_auth_roundtrip_witness :
    (JpegCodec.encode (.Auth [98, 98, 108, 112] [49, 50, 51, 52])).length = 80 ∧
    JpegCodec.decode (JpegCodec.encode (.Auth [98, 98, 108, 112] [49, 50, 51, 52])) =
      (some (.Auth [98, 98, 108, 112] [49, 50, 51, 52]), []) :=
  c6_auth_roundtrip [98, 98, 108, 112] [49, 50, 51, 52]
    (by decide) (by decide) (by decide) (by decide)

/-! ### Well-formed JPEG frames and C7 -/

theorem take_append_of_le {α : Type} {p t : List α} {n : Nat} (h : n ≤ p.length) :
    (p ++ t).take n = p.take n := by
  rw [List.take_append_eq_append_take, Nat.sub_eq_zero_of_le h]
  simp

theorem drop_append_of_le {α : Type} {p t : List α} {n : Nat} (h : n ≤ p.length) :
    (p ++ t).drop n = p.drop n ++ t := by
  rw [List.drop_append_eq_append_drop, Nat.sub_eq_zero_of_le h]
  simp

/-- A well-formed JPEG frame as the spec describes it: it begins with
`FF D8 FF E0`, ends with `FF D9`, and that closing `FF D9` is the *first*
occurrence of the end marker after the start marker. -/
def wellFormedFrame (f : List Nat) : Prop :=
  ∃ body, f = JPEG_START_MARKER ++ body ++ JPEG_END_MARKER ∧
    find_subsequence JPEG_END_MARKER (body ++ JPEG_END_MARKER) = some body.length

/-- **C7.** For every strict prefix `p` of a well-formed JPEG frame, a decode
attempt on a buffer holding exactly `p` returns "need more" (no item) and
leaves the buffer unchanged — in particular prefixes containing other marker
bytes such as `FF DB` but no `FF D9` are not consumed. -/
theorem c7_partial_frame (f p t : List Nat) (hf : wellFormedFrame f)
    (hsplit : f = p ++ t) (ht : t ≠ []) :
    JpegCodec.decode p = (none, p) := by
  obtain ⟨body, hfe, hbody⟩ := hf
  have hflen : f.length = body.length + 6 := by
    simp only [hfe, List.length_append, JPEG_START_MARKER, JPEG_END_MARKER,
      List.length_cons, List.length_nil]
    omega
  have htpos : 0 < t.length := List.length_pos.mpr ht
  have hplen : p.length < f.length := by
    rw [hsplit, List.length_append]; omega
  have htake4 : 4 ≤ p.length → p.take 4 = JPEG_START_MARKER := by
    intro h4p
    have h1 : (p ++ t).take 4 = p.take 4 := take_append_of_le h4p
    have h2 : f.take 4 = JPEG_START_MARKER := by
      rw [hfe, List.append_assoc,
        take_append_of_le (by simp [JPEG_START_MARKER]),
        take_all_of_length_le (by simp [JPEG_START_MARKER])]
    rw [← h1, ← hsplit]
    exact h2
  have hauth : decode_auth_packet p = (none, p) := by
    rw [decode_auth_packet]
    by_cases hlen80 : 80 ≤ p.length
    · rw [if_pos hlen80, if_neg]
      rintro ⟨h1, -⟩
      rw [htake4 (by omega)] at h1
      norm_num [le32, JPEG_START_MARKER] at h1
    · rw [if_neg hlen80]
  have hjpeg : decode_jpeg_packet p = (none, p) := by
    by_cases h4p : 4 ≤ p.length
    · have hsw : beginsWith JPEG_START_MARKER p = true := by
        have hsplit4 : p = JPEG_START_MARKER ++ p.drop 4 := by
          conv_lhs => rw [← List.take_append_drop 4 p]
          rw [htake4 h4p]
        rw [hsplit4]
        exact beginsWith_append_self _ _
      have hfind : find_subsequence JPEG_START_MARKER p = some 0 :=
        find_subsequence_eq_some_iff.2 ⟨by simpa using hsw, by omega⟩
      have hq : p.drop 4 ++ t = body ++ JPEG_END_MARKER := by
        have h1 : (p ++ t).drop 4 = p.drop 4 ++ t := drop_append_of_le h4p
        have h2 : f.drop 4 = body ++ JPEG_END_MARKER := by
          rw [hfe, List.append_assoc,
            show (4 : Nat) = JPEG_START_MARKER.length from rfl, List.drop_left]
        rw [← h1, ← hsplit]
        exact h2
      have hdlen : (List.drop 4 p).length = p.length - 4 := by simp
      have hqlen : (p.drop 4).length < body.length + 2 := by
        rw [hdlen]
        omega
      have hnone : find_subsequence JPEG_END_MARKER (p.drop 4) = none := by
        rw [find_subsequence_eq_none_iff]
        intro j hocc
        have hlenj : JPEG_END_MARKER.length ≤ ((p.drop 4).drop j).length :=
          beginsWith_length_le hocc
        simp only [List.length_drop, JPEG_END_MARKER, List.length_cons,
          List.length_nil] at hlenj
        have hjlt : j < body.length := by omega
        have htr : beginsWith JPEG_END_MARKER ((body ++ JPEG_END_MARKER).drop j)
            = true := by
          rw [← hq, drop_append_of_le (by rw [hdlen]; omega : j ≤ (p.drop 4).length),
            beginsWith_append_left t
              (by simp only [List.length_drop, JPEG_END_MARKER,
                List.length_cons, List.length_nil]; omega)]
          exact hocc
        exact (find_subsequence_eq_some_iff.1 hbody).2 j hjlt htr
      have h04 : (0 + JPEG_START_MARKER.length) = 4 := rfl
      simp only [decode_jpeg_packet, hfind, h04, hnone]
    · have hfnone : find_subsequence JPEG_START_MARKER p = none := by
        rw [find_subsequence_eq_none_iff]
        intro j hocc
        have := beginsWith_length_le hocc
        simp only [List.length_drop, JPEG_START_MARKER, List.length_cons,
          List.length_nil] at this
        omega
      simp only [decode_jpeg_packet, hfnone]
  simp only [JpegCodec.decode, hauth, hjpeg]

/-- **C7 (witness).** The frame `FF D8 FF E0 FF DB FF D9` and its strict
prefix `FF D8 FF E0 FF DB` (the spec's quantization-table example): the
decoder returns "need more" and keeps the buffer intact. -/
theorem c7_partial_frame_witness :
    JpegCodec.decode [0xff, 0xd8, 0xff, 0xe0, 0xff, 0xdb] =
      (none, [0xff, 0xd8, 0xff, 0xe0, 0xff, 0xdb]) :=
  c7_partial_frame [0xff, 0xd8, 0xff, 0xe0, 0xff, 0xdb, 0xff, 0xd9]
    [0xff, 0xd8, 0xff, 0xe0, 0xff, 0xdb] [0xff, 0xd9]
    ⟨[0xff, 0xdb], by decide, by decide⟩ (by decide) (by decide)

/-! ### C1: repeated decoding of a garbage-separated frame stream -/

/-- A garbage stretch containing no occurrence of the JPEG start marker. -/
def noStartMarker (g : List Nat) : Prop :=
  find_subsequence JPEG_START_MARKER g = none

/-- A start-marker occurrence cannot begin inside the last three bytes of the
stretch preceding a frame: no proper suffix of `FF D8 FF E0` is one of its
proper prefixes. -/
theorem beginsWith_start_straddle_false (d y : List Nat)
    (h1 : 1 ≤ d.length) (h3 : d.length ≤ 3) :
    beginsWith JPEG_START_MARKER (d ++ (JPEG_START_MARKER ++ y)) = false := by
  rcases d with _ | ⟨a, _ | ⟨b, _ | ⟨c, _ | ⟨e, d'⟩⟩⟩⟩
  · simp at h1
  · simp [JPEG_START_MARKER, beginsWith]
  · simp [JPEG_START_MARKER, beginsWith]
  · simp [JPEG_START_MARKER, beginsWith]
  · simp at h3

/-- One decode step on `garbage ++ frame ++ rest`: the frame is emitted
exactly, the garbage is discarded, and `rest` is what remains buffered. -/
theorem decode_jpeg_garbage_frame (g f r : List Nat)
    (hg : noStartMarker g) (hf : wellFormedFrame f) :
    decode_jpeg_packet (g ++ f ++ r) = (some f, r) := by
  obtain ⟨body, hfe, hbody⟩ := hf
  subst hfe
  have hfind : find_subsequence JPEG_START_MARKER
      (g ++ (JPEG_START_MARKER ++ body ++ JPEG_END_MARKER) ++ r) = some g.length := by
    rw [find_subsequence_eq_some_iff]
    constructor
    · have hassoc : g ++ (JPEG_START_MARKER ++ body ++ JPEG_END_MARKER) ++ r
          = g ++ (JPEG_START_MARKER ++ (body ++ (JPEG_END_MARKER ++ r))) := by
        simp [List.append_assoc]
      rw [hassoc, List.drop_left]
      exact beginsWith_append_self _ _
    · intro j hj hocc
      have hassoc : g ++ (JPEG_START_MARKER ++ body ++ JPEG_END_MARKER) ++ r
          = g ++ ((JPEG_START_MARKER ++ body ++ JPEG_END_MARKER) ++ r) := by
        simp [List.append_assoc]
      rw [hassoc, drop_append_of_le (by omega : j ≤ g.length)] at hocc
      by_cases hk : 4 ≤ g.length - j
      · rw [beginsWith_append_left _
            (by simp only [List.length_drop, JPEG_START_MARKER,
              List.length_cons, List.length_nil]; omega)] at hocc
        exact (find_subsequence_eq_none_iff.1 hg) j hocc
      · have h1 : 1 ≤ (g.drop j).length := by
          simp only [List.length_drop]; omega
        have h3 : (g.drop j).length ≤ 3 := by
          simp only [List.length_drop]; omega
        have hz : (JPEG_START_MARKER ++ body ++ JPEG_END_MARKER) ++ r
            = JPEG_START_MARKER ++ (body ++ (JPEG_END_MARKER ++ r)) := by
          simp [List.append_assoc]
        rw [hz, beginsWith_start_straddle_false _ _ h1 h3] at hocc
        exact absurd hocc (by simp)
  have hdrop4 : (g ++ (JPEG_START_MARKER ++ body ++ JPEG_END_MARKER) ++ r).drop
      (g.length + JPEG_START_MARKER.length) = body ++ JPEG_END_MARKER ++ r := by
    have hassoc : g ++ (JPEG_START_MARKER ++ body ++ JPEG_END_MARKER) ++ r
        = (g ++ JPEG_START_MARKER) ++ (body ++ JPEG_END_MARKER ++ r) := by
      simp [List.append_assoc]
    rw [hassoc, show g.length + JPEG_START_MARKER.length
      = (g ++ JPEG_START_MARKER).length by simp, List.drop_left]
  have hfindEnd : find_subsequence JPEG_END_MARKER
      (body ++ JPEG_END_MARKER ++ r) = some body.length := by
    rw [find_subsequence_eq_some_iff]
    constructor
    · have hassoc : body ++ JPEG_END_MARKER ++ r
          = body ++ (JPEG_END_MARKER ++ r) := by
        simp [List.append_assoc]
      rw [hassoc, List.drop_left]
      exact beginsWith_append_self _ _
    · intro j hj hocc
      have hle : j ≤ (body ++ JPEG_END_MARKER).length := by
        simp only [List.length_append]; omega
      rw [drop_append_of_le hle, beginsWith_append_left _
          (by simp only [List.length_drop, List.length_append,
            JPEG_END_MARKER, List.length_cons, List.length_nil]; omega)] at hocc
      exact (find_subsequence_eq_some_iff.1 hbody).2 j hj hocc
  have hgf : (g ++ (JPEG_START_MARKER ++ body ++ JPEG_END_MARKER)).length
      = g.length + JPEG_START_MARKER.length + body.length + JPEG_END_MARKER.length := by
    simp only [List.length_append]
    omega
  have htakee : ((g ++ (JPEG_START_MARKER ++ body ++ JPEG_END_MARKER)) ++ r).take
        (g.length + JPEG_START_MARKER.length + body.length + JPEG_END_MARKER.length)
      = g ++ (JPEG_START_MARKER ++ body ++ JPEG_END_MARKER) := by
    rw [take_append_of_le (le_of_eq hgf.symm),
      take_all_of_length_le (le_of_eq hgf)]
  have hframe : (((g ++ (JPEG_START_MARKER ++ body ++ JPEG_END_MARKER)) ++ r).take
        (g.length + JPEG_START_MARKER.length + body.length + JPEG_END_MARKER.length)).drop
        g.length = JPEG_START_MARKER ++ body ++ JPEG_END_MARKER := by
    rw [htakee, List.drop_left]
  have hrest : ((g ++ (JPEG_START_MARKER ++ body ++ JPEG_END_MARKER)) ++ r).drop
        (g.length + JPEG_START_MARKER.length + body.length + JPEG_END_MARKER.length)
      = r := by
    rw [show g.length + JPEG_START_MARKER.length + body.length + JPEG_END_MARKER.length
      = (g ++ (JPEG_START_MARKER ++ body ++ JPEG_END_MARKER)).length from hgf.symm,
      List.drop_left]
  simp only [decode_jpeg_packet, hfind, hdrop4, hfindEnd, hframe, hrest]

/-- A successful JPEG decode strictly shrinks the buffer. -/
theorem decode_jpeg_some_length {src f rest : List Nat}
    (h : decode_jpeg_packet src = (some f, rest)) : rest.length < src.length := by
  rcases hs : find_subsequence JPEG_START_MARKER src with _ | s
  · simp only [decode_jpeg_packet, hs] at h
    exact absurd h (by simp)
  · have hocc := (find_subsequence_eq_some_iff.1 hs).1
    have hs4 := beginsWith_length_le hocc
    simp only [List.length_drop, JPEG_START_MARKER, List.length_cons,
      List.length_nil] at hs4
    rcases he : find_subsequence JPEG_END_MARKER
        (src.drop (s + JPEG_START_MARKER.length)) with _ | rel
    · simp only [decode_jpeg_packet, hs, he] at h
      exact absurd h (by simp)
    · simp only [decode_jpeg_packet, hs, he] at h
      rw [Prod.mk.injEq] at h
      obtain ⟨-, hr⟩ := h
      rw [← hr]
      simp only [List.length_drop, JPEG_START_MARKER, JPEG_END_MARKER,
        List.length_cons, List.length_nil]
      omega

/-- Repeatedly run `decode_jpeg_packet` on a buffer until it reports "need
more": the list of emitted frames, in emission order, together with the final
buffer contents. -/
def drain (src : List Nat) : List (List Nat) × List Nat :=
  match h : decode_jpeg_packet src with
  | (none, _) => ([], src)
  | (some f, rest) =>
    have : rest.length < src.length := decode_jpeg_some_length h
    (f :: (drain rest).1, (drain rest).2)
termination_by src.length

theorem drain_of_none {src : List Nat} (h : (decode_jpeg_packet src).1 = none) :
    drain src = ([], src) := by
  conv_lhs => unfold drain
  split
  · rfl
  · rename_i f rest heq
    rw [heq] at h
    exact absurd h (by simp)

theorem drain_of_some {src f rest : List Nat}
    (h : decode_jpeg_packet src = (some f, rest)) :
    drain src = (f :: (drain rest).1, (drain rest).2) := by
  conv_lhs => unfold drain
  split
  · rename_i heq
    rw [heq] at h
    exact absurd h (by simp)
  · rename_i f' rest' heq
    rw [heq] at h
    rw [Prod.mk.injEq] at h
    obtain ⟨hf, hr⟩ := h
    rw [Option.some.injEq] at hf
    subst hf
    subst hr
    rfl

/-- A stream of frames separated by garbage: each pair contributes its
garbage stretch then its frame, and `gLast` is the trailing garbage. -/
def interleave : List (List Nat × List Nat) → List Nat → List Nat
  | [], gLast => gLast
  | (g, f) :: ps, gLast => g ++ f ++ interleave ps gLast

theorem decode_jpeg_nil : decode_jpeg_packet [] = (none, []) := by decide

/-- Draining a garbage-separated frame stream emits exactly the frames, in
order, and leaves the trailing garbage buffered. -/
theorem drain_interleave (ps : List (List Nat × List Nat)) (gLast : List Nat)
    (hps : ∀ q ∈ ps, noStartMarker q.1 ∧ wellFormedFrame q.2)
    (hg : noStartMarker gLast) :
    drain (interleave ps gLast) = (ps.map Prod.snd, gLast) := by
  induction ps with
  | nil =>
    have hg' : find_subsequence JPEG_START_MARKER gLast = none := hg
    simp only [interleave, List.map_nil]
    apply drain_of_none
    simp only [decode_jpeg_packet, hg']
  | cons q ps ih =>
    obtain ⟨g, f⟩ := q
    have h1 := hps (g, f) (by simp)
    have hstep := decode_jpeg_garbage_frame g f (interleave ps gLast) h1.1 h1.2
    simp only [interleave]
    rw [drain_of_some hstep, ih fun q hq => hps q (by simp [hq])]
    simp

/-- Appending further bytes to the buffer does not change an already
determined decode step. -/
theorem decode_jpeg_append {src c f rest : List Nat}
    (h : decode_jpeg_packet src = (some f, rest)) :
    decode_jpeg_packet (src ++ c) = (some f, rest ++ c) := by
  rcases hs : find_subsequence JPEG_START_MARKER src with _ | s
  · simp only [decode_jpeg_packet, hs] at h
    exact absurd h (by simp)
  · obtain ⟨hoccS, hminS⟩ := find_subsequence_eq_some_iff.1 hs
    have hs4 := beginsWith_length_le hoccS
    simp only [List.length_drop, JPEG_START_MARKER, List.length_cons,
      List.length_nil] at hs4
    rcases he : find_subsequence JPEG_END_MARKER
        (src.drop (s + JPEG_START_MARKER.length)) with _ | rel
    · simp only [decode_jpeg_packet, hs, he] at h
      exact absurd h (by simp)
    · obtain ⟨hoccE, hminE⟩ := find_subsequence_eq_some_iff.1 he
      have he2 := beginsWith_length_le hoccE
      simp only [List.length_drop, JPEG_START_MARKER, JPEG_END_MARKER,
        List.length_cons, List.length_nil] at he2
      have hs' : find_subsequence JPEG_START_MARKER (src ++ c) = some s := by
        rw [find_subsequence_eq_some_iff]
        constructor
        · rw [drop_append_of_le (by omega : s ≤ src.length),
            beginsWith_append_left _
              (by simp only [List.length_drop, JPEG_START_MARKER,
                List.length_cons, List.length_nil]; omega)]
          exact hoccS
        · intro j hj hocc
          rw [drop_append_of_le (by omega : j ≤ src.length),
            beginsWith_append_left _
              (by simp only [List.length_drop, JPEG_START_MARKER,
                List.length_cons, List.length_nil]; omega)] at hocc
          exact hminS j hj hocc
      have hdropc : (src ++ c).drop (s + JPEG_START_MARKER.length)
          = src.drop (s + JPEG_START_MARKER.length) ++ c :=
        drop_append_of_le (by
          simp only [JPEG_START_MARKER, List.length_cons, List.length_nil]
          omega)
      have he' : find_subsequence JPEG_END_MARKER
          ((src ++ c).drop (s + JPEG_START_MARKER.length)) = some rel := by
        rw [hdropc, find_subsequence_eq_some_iff]
        constructor
        · rw [drop_append_of_le (by
              simp only [List.length_drop, JPEG_START_MARKER,
                List.length_cons, List.length_nil]
              omega : rel ≤ (src.drop (s + JPEG_START_MARKER.length)).length),
            beginsWith_append_left _
              (by simp only [List.length_drop, JPEG_START_MARKER,
                JPEG_END_MARKER, List.length_cons, List.length_nil]; omega)]
          exact hoccE
        · intro j hj hocc
          rw [drop_append_of_le (by
              simp only [List.length_drop, JPEG_START_MARKER,
                List.length_cons, List.length_nil]
              omega : j ≤ (src.drop (s + JPEG_START_MARKER.length)).length),
            beginsWith_append_left _
              (by simp only [List.length_drop, JPEG_START_MARKER,
                JPEG_END_MARKER, List.length_cons, List.length_nil]; omega)] at hocc
          exact hminE j hj hocc
      have hee : s + JPEG_START_MARKER.length + rel + JPEG_END_MARKER.length
          ≤ src.length := by
        simp only [JPEG_START_MARKER, JPEG_END_MARKER, List.length_cons,
          List.length_nil]
        omega
      simp only [decode_jpeg_packet, hs, he] at h
      simp only [decode_jpeg_packet, hs', he',
        take_append_of_le hee, drop_append_of_le hee]
      rw [Prod.mk.injEq] at h ⊢
      obtain ⟨hf, hr⟩ := h
      exact ⟨hf, by rw [← hr]⟩

theorem drain_append_aux : ∀ (n : Nat) (src c : List Nat), src.length ≤ n →
    drain (src ++ c) =
      ((drain src).1 ++ (drain ((drain src).2 ++ c)).1,
        (drain ((drain src).2 ++ c)).2) := by
  intro n
  induction n with
  | zero =>
    intro src c hle
    have hsrc : src = [] := List.length_eq_zero.mp (Nat.le_zero.mp hle)
    subst hsrc
    have h0 : drain [] = ([], []) := drain_of_none (by rw [decode_jpeg_nil])
    rw [h0]
    simp
  | succ m ih =>
    intro src c hle
    rcases hd : decode_jpeg_packet src with ⟨_ | f, rest0⟩
    · have hnone : (decode_jpeg_packet src).1 = none := by rw [hd]
      rw [drain_of_none hnone]
      simp
    · have hlt := decode_jpeg_some_length hd
      rw [drain_of_some hd, drain_of_some (decode_jpeg_append hd),
        ih rest0 c (by omega)]
      simp

theorem drain_append (src c : List Nat) :
    drain (src ++ c) =
      ((drain src).1 ++ (drain ((drain src).2 ++ c)).1,
        (drain ((drain src).2 ++ c)).2) :=
  drain_append_aux src.length src c le_rfl

theorem drain_snd_decode_none_aux : ∀ (n : Nat) (src : List Nat),
    src.length ≤ n → (decode_jpeg_packet ((drain src).2)).1 = none := by
  intro n
  induction n with
  | zero =>
    intro src hle
    have hsrc : src = [] := List.length_eq_zero.mp (Nat.le_zero.mp hle)
    subst hsrc
    rw [drain_of_none (by rw [decode_jpeg_nil])]
    rw [decode_jpeg_nil]
  | succ m ih =>
    intro src hle
    rcases hd : decode_jpeg_packet src with ⟨_ | f, rest0⟩
    · have hnone : (decode_jpeg_packet src).1 = none := by rw [hd]
      rw [drain_of_none hnone]
      rw [hd]
    · have hlt := decode_jpeg_some_length hd
      rw [drain_of_some hd]
      exact ih rest0 (by omega)

theorem drain_snd_decode_none (src : List Nat) :
    (decode_jpeg_packet ((drain src).2)).1 = none :=
  drain_snd_decode_none_aux src.length src le_rfl

/-- Feed one chunk of bytes into the framer's buffer and drain it, keeping
the frames emitted so far. -/
def feedChunk (st : List Nat × List (List Nat)) (c : List Nat) :
    List Nat × List (List Nat) :=
  ((drain (st.1 ++ c)).2, st.2 ++ (drain (st.1 ++ c)).1)

/-- Feed a whole sequence of byte chunks, draining after every chunk: final
buffer together with every frame emitted, in order. -/
def feedAll (chunks : List (List Nat)) : List Nat × List (List Nat) :=
  chunks.foldl feedChunk ([], [])

theorem feed_foldl : ∀ (chunks : List (List Nat)) (b : List Nat)
    (out : List (List Nat)), (decode_jpeg_packet b).1 = none →
    chunks.foldl feedChunk (b, out) =
      ((drain (b ++ chunks.flatten)).2, out ++ (drain (b ++ chunks.flatten)).1) := by
  intro chunks
  induction chunks with
  | nil =>
    intro b out hb
    simp only [List.foldl_nil, List.flatten_nil, List.append_nil]
    rw [drain_of_none hb]
    simp
  | cons c cs ih =>
    intro b out hb
    simp only [List.foldl_cons, feedChunk, List.flatten_cons]
    rw [ih (drain (b ++ c)).2 (out ++ (drain (b ++ c)).1)
      (drain_snd_decode_none _)]
    rw [show b ++ (c ++ cs.flatten) = (b ++ c) ++ cs.flatten from
      (List.append_assoc b c cs.flatten).symm]
    rw [drain_append (b ++ c) cs.flatten]
    simp [List.append_assoc]

/-- **C1.** For every byte stream made of `N` well-formed JPEG frames
separated by garbage stretches containing no start marker, feeding the
stream to the decoder in *any* chunking (in particular byte-by-byte) and
draining after every chunk emits exactly the `N` frames, in order, each
byte-identical to its original `[SOI…EOI]` span; the trailing garbage is all
that remains buffered (bytes preceding each start marker are discarded, the
earliest start marker wins, and the earliest end marker after it wins, as
`decode_jpeg_garbage_frame` exhibits). -/
theorem c1_jpeg_stream_framing (ps : List (List Nat × List Nat))
    (gLast : List Nat) (chunks : List (List Nat))
    (hps : ∀ q ∈ ps, noStartMarker q.1 ∧ wellFormedFrame q.2)
    (hg : noStartMarker gLast)
    (hc : chunks.flatten = interleave ps gLast) :
    feedAll chunks = (gLast, ps.map Prod.snd) := by
  unfold feedAll
  rw [feed_foldl chunks [] [] (by rw [decode_jpeg_nil])]
  simp only [List.nil_append, hc]
  rw [drain_interleave ps gLast hps hg]

/-- **C1 (witness).** The stream
`AA · (FF D8 FF E0 01 FF D9) · BB · (FF D8 FF E0 02 03 FF D9) · FF`
fed byte-by-byte emits the two frames, in order, and leaves `FF` buffered. -/
theorem c1_jpeg_stream_framing_witness :
    feedAll [[0xaa], [0xff], [0xd8], [0xff], [0xe0], [0x01], [0xff], [0xd9],
        [0xbb], [0xff], [0xd8], [0xff], [0xe0], [0x02], [0x03], [0xff], [0xd9],
        [0xff]] =
      ([0xff],
        [[0xff, 0xd8, 0xff, 0xe0, 0x01, 0xff, 0xd9],
          [0xff, 0xd8, 0xff, 0xe0, 0x02, 0x03, 0xff, 0xd9]]) :=
  c1_jpeg_stream_framing
    [([0xaa], [0xff, 0xd8, 0xff, 0xe0, 0x01, 0xff, 0xd9]),
      ([0xbb], [0xff, 0xd8, 0xff, 0xe0, 0x02, 0x03, 0xff, 0xd9])]
    [0xff]
    [[0xaa], [0xff], [0xd8], [0xff], [0xe0], [0x01], [0xff], [0xd9],
      [0xbb], [0xff], [0xd8], [0xff], [0xe0], [0x02], [0x03], [0xff], [0xd9],
      [0xff]]
    (by
      intro q hq
      simp only [List.mem_cons, List.not_mem_nil, or_false] at hq
      rcases hq with rfl | rfl
      · exact ⟨by unfold noStartMarker; decide, ⟨[0x01], by decide, by decide⟩⟩
      · exact ⟨by unfold noStartMarker; decide,
          ⟨[0x02, 0x03], by decide, by decide⟩⟩)
    (by unfold noStartMarker; decide) (by decide)

/-! ## FTP control codec (`src/file/ftp/codec.rs`)

Text is modelled as `List Char` (the control lines of the claims are text;
the `str::from_utf8` step of `FtpCodec::decode` is the identity on it). -/

deriving instance DecidableEq for Except

/-- `memchr`: offset of the first occurrence of a character. -/
def memchr (c : Char) : List Char → Option Nat
  | [] => none
  | x :: xs => if x = c then some 0 else (memchr c xs).map (· + 1)

/-- The value of a decimal digit string (most significant first), folded
onto `init`. -/
def digitsVal (init : Nat) (l : List Char) : Nat :=
  l.foldl (fun acc c => acc * 10 + (c.toNat - 48)) init

/-- The optional leading `+` sign accepted by Rust's unsigned `from_str`. -/
def stripPlus (s : List Char) : List Char :=
  match s with
  | '+' :: rest => rest
  | _ => s

/-- Rust `str::parse` for an unsigned integer type with maximum `bound`
(`u8`, `u16`, `u32`, `u64`): an optional leading `+`, then one or more ASCII
digits, value within range; anything else is a parse error. -/
def parseUnsigned (bound : Nat) (s : List Char) : Option Nat :=
  let ds := stripPlus s
  if ds ≠ [] ∧ ds.all (fun c => c.isDigit) then
    let v := digitsVal 0 ds
    if v ≤ bound then some v else none
  else none

def parseU8 (s : List Char) : Option Nat := parseUnsigned 255 s

def parseU16 (s : List Char) : Option Nat := parseUnsigned 65535 s

def parseU32 (s : List Char) : Option Nat := parseUnsigned 4294967295 s

def parseU64 (s : List Char) : Option Nat := parseUnsigned 18446744073709551615 s

/-- Rust `str::split(sep)` over characters. -/
def splitChar (sep : Char) : List Char → List (List Char)
  | [] => [[]]
  | c :: rest =>
    if c = sep then [] :: splitChar sep rest
    else
      match splitChar sep rest with
      | [] => [[c]]
      | h :: t => (c :: h) :: t

/-- The only socket addresses the codec builds: a parsed IPv4 address and a
port (`SocketAddr::new(IpAddr::V4(..), port)`). -/
structure SocketAddrV4 where
  a : Nat
  b : Nat
  c : Nat
  d : Nat
  port : Nat
deriving DecidableEq

/-- `SocketAddr::ip().is_unspecified()` for the addresses the codec builds. -/
def SocketAddrV4.isUnspecified (s : SocketAddrV4) : Prop :=
  s.a = 0 ∧ s.b = 0 ∧ s.c = 0 ∧ s.d = 0

instance (s : SocketAddrV4) : Decidable s.isUnspecified := by
  unfold SocketAddrV4.isUnspecified
  infer_instance

/-- The `io::Error` values the codec and client produce (`InvalidData` kind
with a message, or the message of a `ParseIntError`). -/
inductive FtpError
  | invalidData (msg : String)
  | parseIntError
deriving DecidableEq

/-- `FtpResponse`. -/
inductive FtpResponse
  | FileStatusOkay (message : List Char)
  | ServiceReady (message : List Char)
  | CommandOkay (message : List Char)
  | ClosingControlConnection (message : List Char)
  | ClosingDataConnection (message : List Char)
  | UserLoggedIn (message : List Char)
  | UserNameOkayNeedPassword (message : List Char)
  | FileActionOkay (message : List Char)
  | EnteringPassiveMode (addr : SocketAddrV4)
  | CommandNotImplemented (message : List Char)
  | BadSequenceOfCommands (message : List Char)
  | FileUnavailable (message : List Char)
  | DirectoryActionOkay (message : List Char)
  | Other (code : Nat) (message : List Char)
deriving DecidableEq

/-- `response.splitn(2, ' ')`: the text before the first space and the text
after it (`""` when there is no space). -/
def splitn2Space (response : List Char) : List Char × List Char :=
  match memchr ' ' response with
  | none => (response, [])
  | some i => (response.take i, response.drop (i + 1))

/-- The code-227 branch of `FtpResponse::from_response_string`: exactly one
`(...)` pair, six comma-separated fields `a,b,c,d,p1,p2` (u8 ×4, u16 ×2), and
the port `p1 * 256 + p2` in wrapping u16 arithmetic. -/
def parsePasv (message : List Char) : Except FtpError FtpResponse :=
  match memchr '(' message with
  | none => .error (.invalidData "Missing open paren in PASV response")
  | some start =>
    match memchr ')' (message.drop start) with
    | none => .error (.invalidData "Missing close paren in PASV response")
    | some end_rel =>
      let e := start + end_rel
      if e = start
          ∨ (memchr '(' ((message.drop (start + 1)).take (e - (start + 1)))).isSome
          ∨ (memchr ')' ((message.drop (start + 1)).take (e - (start + 1)))).isSome
          ∨ (memchr '(' (message.drop (e + 1))).isSome
          ∨ (memchr ')' (message.take start)).isSome
          ∨ (memchr ')' (message.drop (e + 1))).isSome then
        .error (.invalidData "Invalid PASV response")
      else
        let data := (message.drop (start + 1)).take (e - (start + 1))
        let parts := splitChar ',' data
        if parts.length ≠ 6 then .error (.invalidData "Invalid PASV response")
        else
          match parseU8 (parts.getD 0 []) with
          | none => .error .parseIntError
          | some a =>
            match parseU8 (parts.getD 1 []) with
            | none => .error .parseIntError
            | some b =>
              match parseU8 (parts.getD 2 []) with
              | none => .error .parseIntError
              | some c =>
                match parseU8 (parts.getD 3 []) with
                | none => .error .parseIntError
                | some d =>
                  match parseU16 (parts.getD 4 []) with
                  | none => .error .parseIntError
                  | some port_hi =>
                    match parseU16 (parts.getD 5 []) with
                    | none => .error .parseIntError
                    | some port_lo =>
                      let port := (port_hi * 256 + port_lo) % 65536
                      .ok (.EnteringPassiveMode ⟨a, b, c, d, port⟩)

/-- `FtpResponse::from_response_string`. -/
def from_response_string (response : List Char) : Except FtpError FtpResponse :=
  let parts := splitn2Space response
  let message := parts.2
  match parseU16 parts.1 with
  | none => .error (.invalidData "Invalid response code")
  | some code =>
    if code = 150 then .ok (.FileStatusOkay message)
    else if code = 220 then .ok (.ServiceReady message)
    else if code = 200 then .ok (.CommandOkay message)
    else if code = 226 then .ok (.ClosingDataConnection message)
    else if code = 230 then .ok (.UserLoggedIn message)
    else if code = 331 then .ok (.UserNameOkayNeedPassword message)
    else if code = 250 then .ok (.FileActionOkay message)
    else if code = 227 then parsePasv message
    else if code = 221 then .ok (.ClosingControlConnection message)
    else if code = 502 then .ok (.CommandNotImplemented message)
    else if code = 503 then .ok (.BadSequenceOfCommands message)
    else if code = 550 then .ok (.FileUnavailable message)
    else if code = 257 then .ok (.DirectoryActionOkay message)
    else .ok (.Other code message)

/-- Offset of the first CRLF in the buffer. -/
def findCRLF : List Char → Option Nat
  | [] => none
  | [_] => none
  | c1 :: c2 :: rest =>
    if c1 = '\r' ∧ c2 = '\n' then some 0
    else (findCRLF (c2 :: rest)).map (· + 1)

/-- `FtpCodec::decode` (`impl Decoder for FtpCodec`): scan for the first
CRLF; absent CRLF waits for more data, otherwise the preceding characters
are parsed as one response and the line plus CRLF is consumed. -/
def FtpCodec.decode (src : List Char) :
    Option (Except FtpError FtpResponse × List Char) :=
  match findCRLF src with
  | none => none
  | some pos => some (from_response_string (src.take pos), src.drop (pos + 2))

/-! ### Lemmas about `memchr`, `splitChar`, and integer parsing -/

theorem memchr_eq_none_of_not_mem {c : Char} {l : List Char} (h : c ∉ l) :
    memchr c l = none := by
  induction l with
  | nil => rfl
  | cons x xs ih =>
    have hx : ¬ x = c := fun hxc => h (by rw [← hxc]; exact List.mem_cons_self x xs)
    rw [memchr, if_neg hx, ih fun hm => h (List.mem_cons_of_mem x hm)]
    rfl

theorem memchr_append_cons {c : Char} {l : List Char} (t : List Char)
    (h : c ∉ l) : memchr c (l ++ c :: t) = some l.length := by
  induction l with
  | nil => simp [memchr]
  | cons x xs ih =>
    have hx : ¬ x = c := fun hxc => h (by rw [← hxc]; exact List.mem_cons_self x xs)
    rw [List.cons_append, memchr, if_neg hx,
      ih fun hm => h (List.mem_cons_of_mem x hm)]
    simp

theorem memchr_eq_some_struct {c : Char} {l : List Char} {i : Nat}
    (h : memchr c l = some i) :
    ∃ front back, l = front ++ c :: back ∧ front.length = i ∧ c ∉ front := by
  induction l generalizing i with
  | nil => exact absurd h (by simp [memchr])
  | cons x xs ih =>
    by_cases hx : x = c
    · rw [memchr, if_pos hx] at h
      cases h
      exact ⟨[], xs, by rw [hx]; rfl, rfl, by simp⟩
    · rw [memchr, if_neg hx] at h
      obtain ⟨k, hk, hik⟩ := Option.map_eq_some'.1 h
      obtain ⟨front, back, hfb, hlen, hnf⟩ := ih hk
      refine ⟨x :: front, back, by rw [hfb, List.cons_append], by simp [hlen, ← hik], ?_⟩
      intro hm
      rcases List.mem_cons.1 hm with h1 | h1
      · exact hx h1.symm
      · exact hnf h1

theorem memchr_eq_none_iff {c : Char} {l : List Char} :
    memchr c l = none ↔ c ∉ l := by
  induction l with
  | nil => simp [memchr]
  | cons x xs ih =>
    by_cases hx : x = c
    · rw [memchr, if_pos hx]
      simp [hx]
    · rw [memchr, if_neg hx]
      simp only [Option.map_eq_none', ih, List.mem_cons]
      constructor
      · rintro hn (h1 | h1)
        · exact hx h1.symm
        · exact hn h1
      · intro hn h1
        exact hn (Or.inr h1)

theorem splitChar_of_not_mem {sep : Char} {s : List Char} (h : sep ∉ s) :
    splitChar sep s = [s] := by
  induction s with
  | nil => rfl
  | cons c rest ih =>
    have hc : ¬ c = sep := fun hcs => h (by rw [← hcs]; exact List.mem_cons_self c rest)
    rw [splitChar, if_neg hc, ih fun hm => h (List.mem_cons_of_mem c hm)]

theorem splitChar_append {sep : Char} {s : List Char} (t : List Char)
    (h : sep ∉ s) :
    splitChar sep (s ++ sep :: t) = s :: splitChar sep t := by
  induction s with
  | nil => simp [splitChar]
  | cons c rest ih =>
    have hc : ¬ c = sep := fun hcs => h (by rw [← hcs]; exact List.mem_cons_self c rest)
    rw [List.cons_append, splitChar, if_neg hc,
      ih fun hm => h (List.mem_cons_of_mem c hm)]

theorem stripPlus_plus (rest : List Char) : stripPlus ('+' :: rest) = rest := rfl

theorem stripPlus_cons_of_ne {x : Char} {rest : List Char} (hx : ¬ x = '+') :
    stripPlus (x :: rest) = x :: rest := by
  unfold stripPlus
  split
  · rename_i heq
    cases heq
    exact absurd rfl hx
  · rfl

theorem mem_stripPlus_or {c : Char} {s : List Char} (hc : c ∈ s) :
    c = '+' ∨ c ∈ stripPlus s := by
  rcases s with _ | ⟨x, rest⟩
  · simp at hc
  · by_cases hx : x = '+'
    · subst hx
      rw [stripPlus_plus]
      rcases List.mem_cons.1 hc with h1 | h1
      · exact Or.inl h1
      · exact Or.inr h1
    · rw [stripPlus_cons_of_ne hx]
      exact Or.inr hc

theorem parseUnsigned_some_mem {bound v : Nat} {s : List Char}
    (h : parseUnsigned bound s = some v) :
    ∀ c ∈ s, c = '+' ∨ c.isDigit = true := by
  intro c hc
  simp only [parseUnsigned] at h
  split at h
  · rename_i hcond
    rcases mem_stripPlus_or hc with h1 | h1
    · exact Or.inl h1
    · exact Or.inr (by simpa using List.all_eq_true.1 hcond.2 c h1)
  · exact absurd h (by simp)

/-- A string that parses as an unsigned integer contains no parenthesis and
no comma. -/
theorem parseUnsigned_no_special {bound v : Nat} {s : List Char}
    (h : parseUnsigned bound s = some v) :
    '(' ∉ s ∧ ')' ∉ s ∧ ',' ∉ s := by
  refine ⟨fun hm => ?_, fun hm => ?_, fun hm => ?_⟩ <;>
    rcases parseUnsigned_some_mem h _ hm with h1 | h1 <;> simp at h1

/-! ### Decimal rendering of naturals and its parse round-trip -/

theorem digitsVal_cons (init : Nat) (c : Char) (l : List Char) :
    digitsVal init (c :: l) = digitsVal (init * 10 + (c.toNat - 48)) l := rfl

theorem digitsVal_eq (l : List Char) :
    ∀ init, digitsVal init l = init * 10 ^ l.length + digitsVal 0 l := by
  induction l with
  | nil => intro init; simp [digitsVal]
  | cons c rest ih =>
    intro init
    rw [digitsVal_cons, ih, digitsVal_cons 0, ih (0 * 10 + (c.toNat - 48))]
    simp only [List.length_cons, pow_succ]
    ring

/-- Digits of `n` in base 10, most significant first, prepended to `acc`;
`fuel ≥ n` makes the division chain terminate structurally. -/
def natReprAux : Nat → Nat → List Char → List Char
  | _, 0, acc => acc
  | 0, _ + 1, acc => acc
  | fuel + 1, n + 1, acc =>
    natReprAux fuel ((n + 1) / 10) (Char.ofNat (48 + (n + 1) % 10) :: acc)

/-- The canonical decimal rendering of a natural number. -/
def natRepr (n : Nat) : List Char :=
  if n = 0 then ['0'] else natReprAux n n []

theorem natReprAux_val :
    ∀ (fuel n : Nat) (acc : List Char), n ≤ fuel →
      digitsVal 0 (natReprAux fuel n acc) = n * 10 ^ acc.length + digitsVal 0 acc := by
  intro fuel
  induction fuel with
  | zero =>
    intro n acc hn
    have : n = 0 := by omega
    subst this
    simp [natReprAux]
  | succ f ih =>
    intro n acc hn
    match n with
    | 0 => simp [natReprAux]
    | m + 1 =>
      rw [show natReprAux (f + 1) (m + 1) acc
          = natReprAux f ((m + 1) / 10) (Char.ofNat (48 + (m + 1) % 10) :: acc) from rfl]
      have hdiv : (m + 1) / 10 < m + 1 := Nat.div_lt_self (by omega) (by omega)
      rw [ih ((m + 1) / 10) _ (by omega)]
      have hd : (Char.ofNat (48 + (m + 1) % 10)).toNat - 48 = (m + 1) % 10 := by
        have hr : (m + 1) % 10 < 10 := Nat.mod_lt _ (by omega)
        have hall : ∀ r < 10, (Char.ofNat (48 + r)).toNat - 48 = r := by decide
        exact hall _ hr
      rw [digitsVal_cons, digitsVal_eq, hd]
      simp only [List.length_cons, pow_succ]
      conv_rhs => rw [← Nat.div_add_mod (m + 1) 10]
      ring

theorem natReprAux_digits :
    ∀ (fuel n : Nat) (acc : List Char), (∀ c ∈ acc, c.isDigit = true) →
      ∀ c ∈ natReprAux fuel n acc, c.isDigit = true := by
  intro fuel
  induction fuel with
  | zero =>
    intro n acc hacc
    match n with
    | 0 => simpa [natReprAux] using hacc
    | m + 1 => simpa [natReprAux] using hacc
  | succ f ih =>
    intro n acc hacc
    match n with
    | 0 => simpa [natReprAux] using hacc
    | m + 1 =>
      rw [show natReprAux (f + 1) (m + 1) acc
          = natReprAux f ((m + 1) / 10) (Char.ofNat (48 + (m + 1) % 10) :: acc) from rfl]
      refine ih ((m + 1) / 10) _ ?_
      intro c hc
      rcases List.mem_cons.1 hc with h1 | h1
      · subst h1
        have hr : (m + 1) % 10 < 10 := Nat.mod_lt _ (by omega)
        have hall : ∀ r < 10, (Char.ofNat (48 + r)).isDigit = true := by decide
        exact hall _ hr
      · exact hacc c h1

theorem natReprAux_eq_nil :
    ∀ {fuel n : Nat} {acc : List Char}, natReprAux fuel n acc = [] → acc = [] := by
  intro fuel
  induction fuel with
  | zero =>
    intro n acc h
    match n with
    | 0 => simpa [natReprAux] using h
    | m + 1 => simpa [natReprAux] using h
  | succ f ih =>
    intro n acc h
    match n with
    | 0 => simpa [natReprAux] using h
    | m + 1 =>
      rw [show natReprAux (f + 1) (m + 1) acc
          = natReprAux f ((m + 1) / 10) (Char.ofNat (48 + (m + 1) % 10) :: acc) from rfl] at h
      exact absurd (ih h) (by simp)

theorem natRepr_ne_nil (n : Nat) : natRepr n ≠ [] := by
  unfold natRepr
  by_cases h0 : n = 0
  · rw [if_pos h0]; simp
  · rw [if_neg h0]
    intro h
    match n, h0 with
    | m + 1, _ =>
      rw [show natReprAux (m + 1) (m + 1) []
          = natReprAux m ((m + 1) / 10) (Char.ofNat (48 + (m + 1) % 10) :: []) from rfl] at h
      exact absurd (natReprAux_eq_nil h) (by simp)

theorem natRepr_digits (n : Nat) : ∀ c ∈ natRepr n, c.isDigit = true := by
  unfold natRepr
  by_cases h0 : n = 0
  · rw [if_pos h0]; decide
  · rw [if_neg h0]
    exact natReprAux_digits n n [] (by simp)

theorem parseUnsigned_natRepr {bound n : Nat} (h : n ≤ bound) :
    parseUnsigned bound (natRepr n) = some n := by
  have hne : natRepr n ≠ [] := natRepr_ne_nil n
  have hdig := natRepr_digits n
  have hstrip : stripPlus (natRepr n) = natRepr n := by
    rcases hr : natRepr n with _ | ⟨x, rest⟩
    · rfl
    · have : x.isDigit = true := hdig x (by rw [hr]; exact List.mem_cons_self x rest)
      exact stripPlus_cons_of_ne (fun hx => by rw [hx] at this; simp at this)
  have hval : digitsVal 0 (natRepr n) = n := by
    unfold natRepr
    by_cases h0 : n = 0
    · rw [if_pos h0, h0]; decide
    · rw [if_neg h0, natReprAux_val n n [] le_rfl]
      simp [digitsVal]
  simp only [parseUnsigned, hstrip]
  rw [if_pos ⟨hne, List.all_eq_true.2 fun c hc => by simpa using hdig c hc⟩,
    hval, if_pos h]

/-! ### C5: response-line decoding (corrected) -/

theorem parseUnsigned_le_bound {bound v : Nat} {s : List Char}
    (h : parseUnsigned bound s = some v) : v ≤ bound := by
  simp only [parseUnsigned] at h
  split at h
  · split at h
    · cases h
      assumption
    · exact absurd h (by simp)
  · exact absurd h (by simp)

theorem findCRLF_append {line : List Char} (rest : List Char)
    (hno : findCRLF line = none) :
    findCRLF (line ++ '\r' :: '\n' :: rest) = some line.length := by
  induction line with
  | nil => simp [findCRLF]
  | cons c line' ih =>
    cases line' with
    | nil =>
      have hcond : ¬ (c = '\r' ∧ '\r' = '\n') := by
        rintro ⟨-, h2⟩
        exact absurd h2 (by decide)
      simp only [List.cons_append, List.nil_append, findCRLF, if_neg hcond]
      simp [findCRLF]
    | cons d line'' =>
      have hstep : ¬ (c = '\r' ∧ d = '\n') ∧ findCRLF (d :: line'') = none := by
        by_cases hcond : c = '\r' ∧ d = '\n'
        · rw [findCRLF, if_pos hcond] at hno
          exact absurd hno (by simp)
        · rw [findCRLF, if_neg hcond] at hno
          exact ⟨hcond, by simpa using hno⟩
      simp only [List.cons_append, findCRLF, if_neg hstep.1]
      have := ih hstep.2
      simp only [List.cons_append, List.append_eq] at this ⊢
      rw [this]
      simp

/-- **C5 (counterexample).** The line `"1000 hi"` has first token `1000`,
outside `0..=999`, yet the decoder succeeds (with `Other(1000, "hi")`): the
code is parsed as a `u16`, not restricted to three digits. -/
theorem c5_ftp_line_counterexample :
    FtpCodec.decode ("1000 hi".data ++ ['\r', '\n']) =
      some (.ok (.Other 1000 "hi".data), []) ∧
    ¬ (1000 : Nat) ≤ 999 := by
  constructor
  · decide
  · decide

/-- **C5 (amended).** When the control-connection decoder finds a
CRLF-terminated line, it consumes the line and the CRLF, and decoding
succeeds only if the first space-delimited token of the line parses as a
decimal `u16`, i.e. a code in `0..=65535`; if that token does not parse as
such a code, decoding fails with an invalid-data error. -/
theorem c5_ftp_line_decoding (line rest : List Char)
    (hno : findCRLF line = none) :
    FtpCodec.decode (line ++ '\r' :: '\n' :: rest) =
      some (from_response_string line, rest) ∧
    (parseU16 (splitn2Space line).1 = none →
      from_response_string line = .error (.invalidData "Invalid response code")) ∧
    (∀ resp, from_response_string line = .ok resp →
      ∃ code, parseU16 (splitn2Space line).1 = some code ∧ code ≤ 65535) := by
  refine ⟨?_, ?_, ?_⟩
  · simp only [FtpCodec.decode, findCRLF_append rest hno]
    rw [take_append_of_le (le_refl line.length), take_all_of_length_le le_rfl]
    have hdrop : (line ++ '\r' :: '\n' :: rest).drop (line.length + 2)
        = rest := by
      rw [show line.length + 2 = (line ++ ['\r', '\n']).length by simp,
        show line ++ '\r' :: '\n' :: rest = (line ++ ['\r', '\n']) ++ rest by simp,
        List.drop_left]
    rw [hdrop]
  · intro hnone
    rw [from_response_string, hnone]
  · intro resp hok
    rcases hp : parseU16 (splitn2Space line).1 with _ | code
    · rw [from_response_string, hp] at hok
      exact absurd hok (by simp)
    · exact ⟨code, rfl, parseUnsigned_le_bound hp⟩

/-- **C5 (witness).** The amended theorem applied to the line `"220 ok"`
followed by `"x"`: the decoder consumes the line and leaves `"x"`. -/
theorem c5_ftp_line_decoding_witness :
    FtpCodec.decode ("220 ok".data ++ '\r' :: '\n' :: "x".data) =
      some (from_response_string "220 ok".data, "x".data) :=
  (c5_ftp_line_decoding "220 ok".data "x".data (by decide)).1

/-! ### C3: PASV parsing (corrected) -/

theorem memchr_isSome_of_mem {c : Char} {l : List Char} (h : c ∈ l) :
    (memchr c l).isSome = true := by
  rcases hm : memchr c l with _ | i
  · exact absurd (memchr_eq_none_iff.1 hm) (by simp [h])
  · rfl

/-- The six-field success case of the 227 parser, on a message with exactly
one parenthesized group. -/
theorem parsePasv_fields
    (pre s1 s2 s3 s4 s5 s6 post : List Char) (a b c d p1 p2 : Nat)
    (hpre1 : '(' ∉ pre) (hpre2 : ')' ∉ pre)
    (hpost1 : '(' ∉ post) (hpost2 : ')' ∉ post)
    (h1 : parseU8 s1 = some a) (h2 : parseU8 s2 = some b)
    (h3 : parseU8 s3 = some c) (h4 : parseU8 s4 = some d)
    (h5 : parseU16 s5 = some p1) (h6 : parseU16 s6 = some p2) :
    parsePasv (pre ++ '(' ::
        ((s1 ++ ',' :: (s2 ++ ',' :: (s3 ++ ',' :: (s4 ++ ',' :: (s5 ++ ',' :: s6)))))
          ++ ')' :: post)) =
      .ok (.EnteringPassiveMode ⟨a, b, c, d, (p1 * 256 + p2) % 65536⟩) := by
  obtain ⟨h1o, h1c, h1m⟩ := parseUnsigned_no_special h1
  obtain ⟨h2o, h2c, h2m⟩ := parseUnsigned_no_special h2
  obtain ⟨h3o, h3c, h3m⟩ := parseUnsigned_no_special h3
  obtain ⟨h4o, h4c, h4m⟩ := parseUnsigned_no_special h4
  obtain ⟨h5o, h5c, h5m⟩ := parseUnsigned_no_special h5
  obtain ⟨h6o, h6c, h6m⟩ := parseUnsigned_no_special h6
  have hmemI : ∀ x, x ∈ s1 ++ ',' :: (s2 ++ ',' :: (s3 ++ ',' :: (s4 ++ ',' :: (s5 ++ ',' :: s6)))) →
      x = ',' ∨ x ∈ s1 ∨ x ∈ s2 ∨ x ∈ s3 ∨ x ∈ s4 ∨ x ∈ s5 ∨ x ∈ s6 := by
    intro x hm
    simp only [List.mem_append, List.mem_cons] at hm
    tauto
  have hIopen : '(' ∉ s1 ++ ',' :: (s2 ++ ',' :: (s3 ++ ',' :: (s4 ++ ',' :: (s5 ++ ',' :: s6)))) := by
    intro hm
    rcases hmemI _ hm with h | h | h | h | h | h | h
    · simp at h
    · exact h1o h
    · exact h2o h
    · exact h3o h
    · exact h4o h
    · exact h5o h
    · exact h6o h
  have hIclose : ')' ∉ s1 ++ ',' :: (s2 ++ ',' :: (s3 ++ ',' :: (s4 ++ ',' :: (s5 ++ ',' :: s6)))) := by
    intro hm
    rcases hmemI _ hm with h | h | h | h | h | h | h
    · simp at h
    · exact h1c h
    · exact h2c h
    · exact h3c h
    · exact h4c h
    · exact h5c h
    · exact h6c h
  have hA : memchr '('
      (pre ++ '(' :: ((s1 ++ ',' :: (s2 ++ ',' :: (s3 ++ ',' :: (s4 ++ ',' :: (s5 ++ ',' :: s6))))) ++ ')' :: post)) = some pre.length :=
    memchr_append_cons _ hpre1
  have hdropS : (pre ++ '(' :: ((s1 ++ ',' :: (s2 ++ ',' :: (s3 ++ ',' :: (s4 ++ ',' :: (s5 ++ ',' :: s6))))) ++ ')' :: post)).drop pre.length
      = '(' :: ((s1 ++ ',' :: (s2 ++ ',' :: (s3 ++ ',' :: (s4 ++ ',' :: (s5 ++ ',' :: s6))))) ++ ')' :: post) :=
    List.drop_left pre _
  have hC : memchr ')' ('(' :: ((s1 ++ ',' :: (s2 ++ ',' :: (s3 ++ ',' :: (s4 ++ ',' :: (s5 ++ ',' :: s6))))) ++ ')' :: post))
      = some ((s1 ++ ',' :: (s2 ++ ',' :: (s3 ++ ',' :: (s4 ++ ',' :: (s5 ++ ',' :: s6))))).length + 1) := by
    rw [memchr, if_neg (by decide), memchr_append_cons post hIclose]
    rfl
  simp only [parsePasv, hA, hdropS, hC]
  have hregion : (((pre ++ '(' :: ((s1 ++ ',' :: (s2 ++ ',' :: (s3 ++ ',' :: (s4 ++ ',' :: (s5 ++ ',' :: s6))))) ++ ')' :: post))).drop (pre.length + 1)).take
        (pre.length + ((s1 ++ ',' :: (s2 ++ ',' :: (s3 ++ ',' :: (s4 ++ ',' :: (s5 ++ ',' :: s6))))).length + 1) - (pre.length + 1))
      = s1 ++ ',' :: (s2 ++ ',' :: (s3 ++ ',' :: (s4 ++ ',' :: (s5 ++ ',' :: s6)))) := by
    have hshape : pre ++ '(' :: ((s1 ++ ',' :: (s2 ++ ',' :: (s3 ++ ',' :: (s4 ++ ',' :: (s5 ++ ',' :: s6))))) ++ ')' :: post)
        = (pre ++ ['(']) ++ ((s1 ++ ',' :: (s2 ++ ',' :: (s3 ++ ',' :: (s4 ++ ',' :: (s5 ++ ',' :: s6))))) ++ ')' :: post) := by
      simp
    rw [hshape,
      show pre.length + ((s1 ++ ',' :: (s2 ++ ',' :: (s3 ++ ',' :: (s4 ++ ',' :: (s5 ++ ',' :: s6))))).length + 1) - (pre.length + 1)
        = (s1 ++ ',' :: (s2 ++ ',' :: (s3 ++ ',' :: (s4 ++ ',' :: (s5 ++ ',' :: s6))))).length by omega,
      show pre.length + 1 = (pre ++ ['(']).length by simp, List.drop_left,
      List.take_left]
  have htakeS : (pre ++ '(' :: ((s1 ++ ',' :: (s2 ++ ',' :: (s3 ++ ',' :: (s4 ++ ',' :: (s5 ++ ',' :: s6))))) ++ ')' :: post)).take pre.length = pre :=
    List.take_left pre _
  have hdropE : (pre ++ '(' :: ((s1 ++ ',' :: (s2 ++ ',' :: (s3 ++ ',' :: (s4 ++ ',' :: (s5 ++ ',' :: s6))))) ++ ')' :: post)).drop
      (pre.length + ((s1 ++ ',' :: (s2 ++ ',' :: (s3 ++ ',' :: (s4 ++ ',' :: (s5 ++ ',' :: s6))))).length + 1) + 1) = post := by
    have hshape : pre ++ '(' :: ((s1 ++ ',' :: (s2 ++ ',' :: (s3 ++ ',' :: (s4 ++ ',' :: (s5 ++ ',' :: s6))))) ++ ')' :: post)
        = (pre ++ '(' :: ((s1 ++ ',' :: (s2 ++ ',' :: (s3 ++ ',' :: (s4 ++ ',' :: (s5 ++ ',' :: s6))))) ++ [')'])) ++ post := by
      simp
    rw [hshape, show pre.length + ((s1 ++ ',' :: (s2 ++ ',' :: (s3 ++ ',' :: (s4 ++ ',' :: (s5 ++ ',' :: s6))))).length + 1) + 1
        = (pre ++ '(' :: ((s1 ++ ',' :: (s2 ++ ',' :: (s3 ++ ',' :: (s4 ++ ',' :: (s5 ++ ',' :: s6))))) ++ [')'])).length by
      simp only [List.length_append, List.length_cons, List.length_nil]
      omega, List.drop_left]
  rw [hregion, htakeS, hdropE]
  rw [if_neg (by
    rintro (h | h | h | h | h | h)
    · omega
    · rw [memchr_eq_none_of_not_mem hIopen] at h
      simp at h
    · rw [memchr_eq_none_of_not_mem hIclose] at h
      simp at h
    · rw [memchr_eq_none_of_not_mem hpost1] at h
      simp at h
    · rw [memchr_eq_none_of_not_mem hpre2] at h
      simp at h
    · rw [memchr_eq_none_of_not_mem hpost2] at h
      simp at h)]
  have hsplit : splitChar ',' (s1 ++ ',' :: (s2 ++ ',' :: (s3 ++ ',' :: (s4 ++ ',' :: (s5 ++ ',' :: s6)))))
      = [s1, s2, s3, s4, s5, s6] := by
    rw [splitChar_append _ h1m, splitChar_append _ h2m, splitChar_append _ h3m,
      splitChar_append _ h4m, splitChar_append _ h5m, splitChar_of_not_mem h6m]
  rw [hsplit]
  rw [if_neg (by simp)]
  simp only [List.getD, List.get?_eq_getElem?, List.getElem?_cons_zero,
    List.getElem?_cons_succ, Option.getD_some]
  simp only [h1, h2, h3, h4, h5, h6]

/-- `from_response_string` on a line `"227 <msg>"` defers to the PASV
parser. -/
theorem from_response_string_227 (msg : List Char) :
    from_response_string ('2' :: '2' :: '7' :: ' ' :: msg) = parsePasv msg := by
  have hm : memchr ' ' ('2' :: '2' :: '7' :: ' ' :: msg) = some 3 := by
    simp [memchr]
  have hp : parseU16 ['2', '2', '7'] = some 227 := by decide
  simp only [from_response_string, splitn2Space, hm, List.take_succ_cons,
    List.take_zero, List.drop_succ_cons, List.drop_zero, hp]
  norm_num

/-- A message that does not contain exactly one `(` and exactly one `)` is
rejected by the PASV parser. -/
theorem parsePasv_paren_reject (msg : List Char)
    (hcnt : msg.count '(' ≠ 1 ∨ msg.count ')' ≠ 1) :
    ∃ err, parsePasv msg = .error err := by
  rcases hstart : memchr '(' msg with _ | s
  · exact ⟨.invalidData "Missing open paren in PASV response",
      by simp only [parsePasv, hstart]⟩
  · rcases hend : memchr ')' (msg.drop s) with _ | er
    · exact ⟨.invalidData "Missing close paren in PASV response",
        by simp only [parsePasv, hstart, hend]⟩
    · obtain ⟨A, B, hAB, hAlen, hAno⟩ := memchr_eq_some_struct hstart
      have hdropA : msg.drop s = '(' :: B := by
        rw [hAB, ← hAlen]
        exact List.drop_left A _
      have hend' := hend
      rw [hdropA, memchr, if_neg (by decide)] at hend'
      obtain ⟨k, hk, hike⟩ := Option.map_eq_some'.1 hend'
      obtain ⟨C, D, hCD, hClen, hCno⟩ := memchr_eq_some_struct hk
      have hmsg : msg = A ++ '(' :: (C ++ ')' :: D) := by rw [hAB, hCD]
      have hfour : '(' ∈ C ∨ '(' ∈ D ∨ ')' ∈ A ∨ ')' ∈ D := by
        by_contra hno
        push_neg at hno
        obtain ⟨hn1, hn2, hn3, hn4⟩ := hno
        have hopen : msg.count '(' = 1 := by
          rw [hmsg]
          simp only [List.count_append, List.count_cons]
          rw [List.count_eq_zero.2 hAno, List.count_eq_zero.2 hn1,
            List.count_eq_zero.2 hn2]
          simp
        have hclose : msg.count ')' = 1 := by
          rw [hmsg]
          simp only [List.count_append, List.count_cons]
          rw [List.count_eq_zero.2 hn3, List.count_eq_zero.2 hCno,
            List.count_eq_zero.2 hn4]
          simp
        rcases hcnt with h | h
        · exact h hopen
        · exact h hclose
      refine ⟨.invalidData "Invalid PASV response", ?_⟩
      simp only [parsePasv, hstart, hend]
      have hregion : (msg.drop (s + 1)).take (s + er - (s + 1)) = C := by
        have hsh : A ++ '(' :: (C ++ ')' :: D) = (A ++ ['(']) ++ (C ++ ')' :: D) := by
          simp
        rw [hmsg, hsh, show s + er - (s + 1) = C.length by omega,
          show s + 1 = (A ++ ['(']).length by simp [hAlen],
          List.drop_left, List.take_left]
      have htakeS : msg.take s = A := by
        rw [hmsg, ← hAlen, List.take_left]
      have hdropE : msg.drop (s + er + 1) = D := by
        have hsh : A ++ '(' :: (C ++ ')' :: D) = (A ++ '(' :: (C ++ [')'])) ++ D := by
          simp
        rw [hmsg, hsh, show s + er + 1 = (A ++ '(' :: (C ++ [')'])).length by
          simp only [List.length_append, List.length_cons, List.length_nil]
          omega, List.drop_left]
      rw [hregion, htakeS, hdropE]
      rw [if_pos ?_]
      rcases hfour with h | h | h | h
      · exact Or.inr (Or.inl (memchr_isSome_of_mem h))
      · exact Or.inr (Or.inr (Or.inr (Or.inl (memchr_isSome_of_mem h))))
      · exact Or.inr (Or.inr (Or.inr (Or.inr (Or.inl (memchr_isSome_of_mem h)))))
      · exact Or.inr (Or.inr (Or.inr (Or.inr (Or.inr (memchr_isSome_of_mem h)))))

/-- **C3 (counterexample).** `p1 = 256` and `p2 = 0` are valid u16 fields,
but `"227 x (1,2,3,4,256,0)"` parses to port `0` (u16 arithmetic wraps
`256 * 256 + 0`), not to port `p1 * 256 + p2 = 65536` as the claim states. -/
theorem c3_pasv_counterexample :
    from_response_string "227 x (1,2,3,4,256,0)".data =
      .ok (.EnteringPassiveMode ⟨1, 2, 3, 4, 0⟩) ∧
    (256 * 256 + 0 : Nat) ≠ 0 :=
  ⟨by decide, by decide⟩

/-- **C3 (amended).** For every 227 response whose single parenthesized
group contains exactly six comma-separated decimal fields `a,b,c,d,p1,p2`
with `a..d` valid u8 and `p1,p2` valid u16, parsing succeeds and returns the
socket address `a.b.c.d` with port `(p1*256 + p2) mod 2^16` (u16 wrapping
arithmetic); in particular for every IPv4 `a.b.c.d` and port `p ≤ 65535`
the message `(a,b,c,d,p/256,p%256)` parses to `a.b.c.d:p`; and any message
without exactly one `(` and one `)` is rejected with an error. -/
theorem c3_pasv_parsing
    (pre s1 s2 s3 s4 s5 s6 post msg : List Char) (a b c d p1 p2 p : Nat)
    (hpre1 : '(' ∉ pre) (hpre2 : ')' ∉ pre)
    (hpost1 : '(' ∉ post) (hpost2 : ')' ∉ post)
    (h1 : parseU8 s1 = some a) (h2 : parseU8 s2 = some b)
    (h3 : parseU8 s3 = some c) (h4 : parseU8 s4 = some d)
    (h5 : parseU16 s5 = some p1) (h6 : parseU16 s6 = some p2)
    (hp : p ≤ 65535)
    (hcnt : msg.count '(' ≠ 1 ∨ msg.count ')' ≠ 1) :
    from_response_string ('2' :: '2' :: '7' :: ' ' :: (pre ++ '(' ::
        ((s1 ++ ',' :: (s2 ++ ',' :: (s3 ++ ',' :: (s4 ++ ',' :: (s5 ++ ',' :: s6)))))
          ++ ')' :: post)))
      = .ok (.EnteringPassiveMode ⟨a, b, c, d, (p1 * 256 + p2) % 65536⟩) ∧
    from_response_string ('2' :: '2' :: '7' :: ' ' :: (pre ++ '(' ::
        ((natRepr a ++ ',' :: (natRepr b ++ ',' :: (natRepr c ++ ',' ::
          (natRepr d ++ ',' :: (natRepr (p / 256) ++ ',' :: natRepr (p % 256))))))
          ++ ')' :: post)))
      = .ok (.EnteringPassiveMode ⟨a, b, c, d, p⟩) ∧
    ∃ err, from_response_string ('2' :: '2' :: '7' :: ' ' :: msg) = .error err := by
  refine ⟨?_, ?_, ?_⟩
  · rw [from_response_string_227]
    exact parsePasv_fields pre s1 s2 s3 s4 s5 s6 post a b c d p1 p2
      hpre1 hpre2 hpost1 hpost2 h1 h2 h3 h4 h5 h6
  · rw [from_response_string_227]
    have ha := parseUnsigned_le_bound h1
    have hb := parseUnsigned_le_bound h2
    have hc := parseUnsigned_le_bound h3
    have hd := parseUnsigned_le_bound h4
    have key := parsePasv_fields pre (natRepr a) (natRepr b) (natRepr c)
      (natRepr d) (natRepr (p / 256)) (natRepr (p % 256)) post
      a b c d (p / 256) (p % 256) hpre1 hpre2 hpost1 hpost2
      (parseUnsigned_natRepr ha) (parseUnsigned_natRepr hb)
      (parseUnsigned_natRepr hc) (parseUnsigned_natRepr hd)
      (parseUnsigned_natRepr (by omega)) (parseUnsigned_natRepr (by omega))
    rw [key]
    have hport : (p / 256 * 256 + p % 256) % 65536 = p := by
      have hdm := Nat.div_add_mod p 256
      have heq : p / 256 * 256 + p % 256 = p := by omega
      rw [heq, Nat.mod_eq_of_lt (by omega)]
    rw [hport]
  · obtain ⟨err, herr⟩ := parsePasv_paren_reject msg hcnt
    exact ⟨err, by rw [from_response_string_227, herr]⟩

/-- **C3 (witness).** The amended parser behaviour at
`"227 x (192,168,1,2,10,20)"`-shaped inputs (`p = 2580`) and the rejected
message `"(()"`. -/
theorem c3_pasv_parsing_witness :
    from_response_string ('2' :: '2' :: '7' :: ' ' :: (['x', ' '] ++ '(' ::
        (("192".data ++ ',' :: ("168".data ++ ',' :: ("1".data ++ ',' ::
          ("2".data ++ ',' :: ("10".data ++ ',' :: "20".data))))) ++ ')' :: [])))
      = .ok (.EnteringPassiveMode ⟨192, 168, 1, 2, (10 * 256 + 20) % 65536⟩) ∧
    from_response_string ('2' :: '2' :: '7' :: ' ' :: (['x', ' '] ++ '(' ::
        ((natRepr 192 ++ ',' :: (natRepr 168 ++ ',' :: (natRepr 1 ++ ',' ::
          (natRepr 2 ++ ',' :: (natRepr (2580 / 256) ++ ',' :: natRepr (2580 % 256))))))
          ++ ')' :: [])))
      = .ok (.EnteringPassiveMode ⟨192, 168, 1, 2, 2580⟩) ∧
    ∃ err, from_response_string ('2' :: '2' :: '7' :: ' ' :: "(()".data) = .error err :=
  c3_pasv_parsing ['x', ' '] "192".data "168".data "1".data "2".data
    "10".data "20".data [] "(()".data 192 168 1 2 10 20 2580
    (by decide) (by decide) (by decide) (by decide)
    (by decide) (by decide) (by decide) (by decide) (by decide) (by decide)
    (by decide) (by decide)

/-! ## File metadata (`src/file/ftp/metadata.rs`)

`chrono`'s `NaiveDateTime::parse_from_str` with the fixed format
`"%Y %b %d %H:%M"` is an external-library call; it is modelled from chrono's
documented behaviour: whitespace in the format matches a run of whitespace,
`%Y` is one or more digits (non-negative years; the astronomical year bound
is not modelled), `%b` is a case-insensitive English month name (abbreviated,
with the optional long-form tail consumed), `%d`/`%H`/`%M` are one or two
digits, the whole input must be consumed, and the resulting calendar date
(leap years included) and time must be valid. -/

/-- UTF-8 byte length of a character sequence (`str::len` in Rust). -/
def utf8Len (s : List Char) : Nat :=
  (s.map fun c =>
    if c.toNat < 0x80 then 1
    else if c.toNat < 0x800 then 2
    else if c.toNat < 0x10000 then 3
    else 4).sum

/-- `Permissions`. -/
structure Permissions where
  directory : Bool
  readable : Bool
  writable : Bool
  executable : Bool
deriving DecidableEq

/-- `Permissions::from_chmod`. -/
def Permissions.from_chmod (chmod : List Char) : Except String Permissions :=
  if utf8Len chmod ≠ 10 then .error "Invalid chmod format"
  else .ok {
    directory := chmod.get? 0 == some 'd'
    readable := chmod.get? 1 == some 'r' && chmod.get? 4 == some 'r'
      && chmod.get? 7 == some 'r'
    writable := chmod.get? 2 == some 'w' && chmod.get? 5 == some 'w'
      && chmod.get? 8 == some 'w'
    executable := chmod.get? 3 == some 'x' && chmod.get? 6 == some 'x'
      && chmod.get? 9 == some 'x' }

/-- `Permissions::to_octal` (`mode |= 0o444 / 0o222 / 0o111`). -/
def Permissions.to_octal (p : Permissions) : Nat :=
  (((0 : Nat) ||| (if p.readable then 0o444 else 0))
    ||| (if p.writable then 0o222 else 0))
    ||| (if p.executable then 0o111 else 0)

/-- The `NaiveDateTime` fields produced by the `"%Y %b %d %H:%M"` format
(seconds are always zero). -/
structure DateTime where
  year : Nat
  month : Nat
  day : Nat
  hour : Nat
  minute : Nat
deriving DecidableEq

def isLeapYear (y : Nat) : Bool :=
  (y % 4 = 0 && y % 100 ≠ 0) || y % 400 = 0

def daysInMonth (y m : Nat) : Nat :=
  if m = 2 then (if isLeapYear y then 29 else 28)
  else if m = 4 ∨ m = 6 ∨ m = 9 ∨ m = 11 then 30
  else 31

/-- The ASCII portion of the whitespace classes used by Rust's
`split_whitespace` and chrono's space items (LIST lines are ASCII). -/
def isWs (c : Char) : Bool :=
  c = ' ' || c = '\t' || c = '\n' || c = '\r' || c.toNat = 0xB || c.toNat = 0xC

def skipWs (s : List Char) : List Char := s.dropWhile isWs

/-- One or more leading digits and their value. -/
def parseNumAll (s : List Char) : Option (Nat × List Char) :=
  let ds := s.takeWhile (fun c => c.isDigit)
  if ds = [] then none
  else some (digitsVal 0 ds, s.dropWhile (fun c => c.isDigit))

/-- One or two leading digits and their value (`%d`, `%H`, `%M`). -/
def parseNumMax2 (s : List Char) : Option (Nat × List Char) :=
  match s with
  | [] => none
  | c1 :: rest =>
    if c1.isDigit then
      match rest with
      | c2 :: rest2 =>
        if c2.isDigit then some (digitsVal 0 [c1, c2], rest2)
        else some (digitsVal 0 [c1], rest)
      | [] => some (digitsVal 0 [c1], [])
    else none

/-- English month names: abbreviation, long-form tail, month number. -/
def monthNames : List (String × String × Nat) :=
  [("jan", "uary", 1), ("feb", "ruary", 2), ("mar", "ch", 3), ("apr", "il", 4),
   ("may", "", 5), ("jun", "e", 6), ("jul", "y", 7), ("aug", "ust", 8),
   ("sep", "tember", 9), ("oct", "ober", 10), ("nov", "ember", 11),
   ("dec", "ember", 12)]

/-- `%b`: a case-insensitive three-letter month abbreviation, consuming the
long-form tail when present. -/
def parseMonth (s : List Char) : Option (Nat × List Char) :=
  match s with
  | c1 :: c2 :: c3 :: rest =>
    let key := [c1.toLower, c2.toLower, c3.toLower]
    match monthNames.find? (fun e => e.1.data == key) with
    | none => none
    | some e =>
      let tail := e.2.1.data
      if tail ≠ [] ∧ (rest.take tail.length).map Char.toLower = tail then
        some (e.2.2, rest.drop tail.length)
      else some (e.2.2, rest)
  | _ => none

/-- `NaiveDateTime::parse_from_str(input, "%Y %b %d %H:%M")` (see the module
comment for the modelling assumptions). -/
def parseDateTimeYbdHM (s : List Char) : Option DateTime :=
  match parseNumAll s with
  | none => none
  | some (y, s1) =>
    match parseMonth (skipWs s1) with
    | none => none
    | some (mo, s3) =>
      match parseNumMax2 (skipWs s3) with
      | none => none
      | some (dday, s5) =>
        match parseNumMax2 (skipWs s5) with
        | none => none
        | some (hh, s7) =>
          match s7 with
          | ':' :: s8 =>
            match parseNumMax2 s8 with
            | none => none
            | some (mi, s9) =>
              if s9 = [] ∧ 1 ≤ dday ∧ dday ≤ daysInMonth y mo ∧ hh ≤ 23 ∧ mi ≤ 59
              then some ⟨y, mo, dday, hh, mi⟩
              else none
          | _ => none

/-- `FileMetadata`. -/
structure FileMetadata where
  chmod : Permissions
  user : List Char
  group : List Char
  size : Nat
  date : DateTime
  filename : List Char
deriving DecidableEq

theorem length_dropWhile_le {α : Type} (p : α → Bool) (l : List α) :
    (l.dropWhile p).length ≤ l.length := by
  induction l with
  | nil => simp
  | cons a t ih =>
    rw [List.dropWhile_cons]
    split
    · exact le_trans ih (by simp)
    · simp

/-- One pass of Rust's `str::split_whitespace`: `cur` holds the reversed
characters of the token being read. -/
def splitWsAux : List Char → List Char → List (List Char)
  | cur, [] => if cur = [] then [] else [cur.reverse]
  | cur, c :: rest =>
    if isWs c then
      if cur = [] then splitWsAux [] rest
      else cur.reverse :: splitWsAux [] rest
    else splitWsAux (c :: cur) rest

/-- Rust `str::split_whitespace`: maximal non-whitespace runs. -/
def splitWs (s : List Char) : List (List Char) :=
  splitWsAux [] s

/-- `parts[8..].join(" ")`. -/
def joinSpace : List (List Char) → List Char
  | [] => []
  | [x] => x
  | x :: y :: rest => x ++ ' ' :: joinSpace (y :: rest)

/-- The `format!` strings handed to chrono: either
`"{current_year} {month} {day} {year_or_time}"` (when the token contains a
colon) or `"{year_or_time} {month} {day} 00:00"`. -/
def dateInput (currentYear day : Nat) (month year_or_time : List Char) :
    List Char :=
  if year_or_time.contains ':' then
    natRepr currentYear ++ ' ' :: (month ++ ' ' :: (natRepr day ++ ' ' :: year_or_time))
  else
    year_or_time ++ ' ' :: (month ++ ' ' :: (natRepr day ++ ' ' :: "00:00".data))

/-- `FileMetadata::from_str`, with the ambient local-clock year passed in as
`currentYear` (the code reads `chrono::Local::now().year()`). -/
def FileMetadata.from_str (currentYear : Nat) (s : List Char) :
    Except String FileMetadata :=
  let parts := splitWs s
  if parts.length < 9 then .error "Invalid FTP LIST line"
  else
    match Permissions.from_chmod (parts.getD 0 []) with
    | .error e => .error e
    | .ok chmod =>
      let user := parts.getD 2 []
      let group := parts.getD 3 []
      match parseU64 (parts.getD 4 []) with
      | none => .error "Invalid size format"
      | some size =>
        let month := parts.getD 5 []
        match parseU32 (parts.getD 6 []) with
        | none => .error "Invalid day format"
        | some day =>
          let year_or_time := parts.getD 7 []
          if year_or_time.contains ':' then
            match parseDateTimeYbdHM (dateInput currentYear day month year_or_time) with
            | none => .error "Invalid time format"
            | some date =>
              .ok ⟨chmod, user, group, size, date, joinSpace (parts.drop 8)⟩
          else
            match parseDateTimeYbdHM (dateInput currentYear day month year_or_time) with
            | none => .error "Invalid date format"
            | some date =>
              .ok ⟨chmod, user, group, size, date, joinSpace (parts.drop 8)⟩

/-! ## FTPS client (`src/file/ftp.rs`)

The async dialogue is modelled by threading the list of decoded responses
the control connection will deliver (`framed.next()` pops the head; an empty
list is end-of-stream).  The client's `hostname` is modelled as the
already-parsed IPv4 server address (`self.hostname.parse().unwrap()`; the
source notes it was validated while connecting). -/

/-- The IPv4 address the client connected to. -/
structure Ipv4 where
  a : Nat
  b : Nat
  c : Nat
  d : Nat
deriving DecidableEq

/-- `FtpRequest`. -/
inductive FtpRequest
  | User (username : List Char)
  | Pass (password : List Char)
  | Quit
  | EnterPassiveMode
  | List (path : List Char)
  | ProtectionBufferSize (size : Nat)
  | ProtectionLevel (level : List Char)
  | Pwd
deriving DecidableEq

/-- A client operation either fails with an `io::Error` or panics (the
`.unwrap()` calls in `authenticate`). -/
inductive ClientErr
  | ioError (e : FtpError)
  | panic
deriving DecidableEq

/-- The response fix-up in `FtpClient::send_command`: a PASV reply whose
advertised IP is unspecified (all zeros) keeps its port but takes the
control connection's server IP. -/
def fixupResponse (host : Ipv4) (r : FtpResponse) : FtpResponse :=
  match r with
  | .EnteringPassiveMode addr =>
    if addr.isUnspecified then
      .EnteringPassiveMode ⟨host.a, host.b, host.c, host.d, addr.port⟩
    else .EnteringPassiveMode addr
  | other => other

/-- `FtpClient::send_command`: send the request, read one response, apply
the PASV fix-up; end-of-stream is an invalid-response error. -/
def send_command (host : Ipv4) (_cmd : FtpRequest)
    (responses : List FtpResponse) :
    Except FtpError (FtpResponse × List FtpResponse) :=
  match responses with
  | [] => .error (.invalidData "Invalid response")
  | r :: rest => .ok (fixupResponse host r, rest)

/-- `FtpClient::authenticate`: read the banner (any non-220 response, or
end-of-stream, just leaves the welcome message as `None`), then
USER (331) → PASS (230) → PBSZ 0 (200) → PROT P (200).  The USER and PASS
exchanges `.unwrap()` their `send_command` result. -/
def authenticate (host : Ipv4) (username password : List Char)
    (responses : List FtpResponse) :
    Except ClientErr (Option (List Char) × List FtpResponse) :=
  let bannerStep : Option (List Char) × List FtpResponse :=
    match responses with
    | .ServiceReady m :: rest => (some m, rest)
    | _ :: rest => (none, rest)
    | [] => (none, [])
  match send_command host (.User username) bannerStep.2 with
  | .error _ => .error .panic
  | .ok (r, rs) =>
    match r with
    | .UserNameOkayNeedPassword _ =>
      match send_command host (.Pass password) rs with
      | .error _ => .error .panic
      | .ok (r, rs) =>
        match r with
        | .UserLoggedIn _ =>
          match send_command host (.ProtectionBufferSize 0) rs with
          | .error e => .error (.ioError e)
          | .ok (r, rs) =>
            match r with
            | .CommandOkay _ =>
              match send_command host (.ProtectionLevel ['P']) rs with
              | .error e => .error (.ioError e)
              | .ok (r, rs) =>
                match r with
                | .CommandOkay _ => .ok (bannerStep.1, rs)
                | _ => .error (.ioError (.invalidData "Invalid PROT response"))
            | _ => .error (.ioError (.invalidData "Invalid PBSZ response"))
        | _ => .error (.ioError (.invalidData "Invalid password response"))
    | _ => .error (.ioError (.invalidData "Invalid username response"))

/-- `FtpClient::pwd`: PWD expects 257. -/
def pwd (host : Ipv4) (responses : List FtpResponse) :
    Except ClientErr (List Char × List FtpResponse) :=
  match send_command host .Pwd responses with
  | .error e => .error (.ioError e)
  | .ok (r, rs) =>
    match r with
    | .DirectoryActionOkay m => .ok (m, rs)
    | _ => .error (.ioError (.invalidData "Invalid PWD response"))

/-- `FtpClient::quit`: QUIT accepts 221 *and* 226. -/
def quit (host : Ipv4) (responses : List FtpResponse) :
    Except ClientErr (Unit × List FtpResponse) :=
  match send_command host .Quit responses with
  | .error e => .error (.ioError e)
  | .ok (r, rs) =>
    match r with
    | .ClosingControlConnection _ => .ok ((), rs)
    | .ClosingDataConnection _ => .ok ((), rs)
    | _ => .error (.ioError (.invalidData "Invalid QUIT response"))

/-- The data-connection loop of `list_files`: each CRLF line is parsed as
file metadata; the first parse error aborts. -/
def parseLines (currentYear : Nat) : List (List Char) →
    Except String (List FileMetadata)
  | [] => .ok []
  | l :: rest =>
    match FileMetadata.from_str currentYear l with
    | .error e => .error e
    | .ok md =>
      match parseLines currentYear rest with
      | .error e => .error e
      | .ok mds => .ok (md :: mds)

/-- `FtpClient::list_files`: PWD → PASV (227) → LIST (150) → drain the data
connection (`dataLines`) → QUIT. -/
def list_files (host : Ipv4) (directory : List Char) (currentYear : Nat)
    (responses : List FtpResponse) (dataLines : List (List Char)) :
    Except ClientErr (List FileMetadata × List FtpResponse) :=
  match pwd host responses with
  | .error e => .error e
  | .ok (_, rs) =>
    match send_command host .EnterPassiveMode rs with
    | .error e => .error (.ioError e)
    | .ok (r, rs) =>
      match r with
      | .EnteringPassiveMode _ =>
        match send_command host (.List directory) rs with
        | .error e => .error (.ioError e)
        | .ok (r, rs) =>
          match r with
          | .FileStatusOkay _ =>
            match parseLines currentYear dataLines with
            | .error e => .error (.ioError (.invalidData e))
            | .ok files =>
              match quit host rs with
              | .error e => .error e
              | .ok (_, rs) => .ok (files, rs)
          | _ => .error (.ioError (.invalidData "Invalid LIST response"))
      | _ => .error (.ioError (.invalidData "Invalid passive mode response"))

/-! Response-shape discriminators (used to say "any response other than the
expected code"). -/

def isServiceReady : FtpResponse → Bool
  | .ServiceReady _ => true
  | _ => false

def isUserNameOkay : FtpResponse → Bool
  | .UserNameOkayNeedPassword _ => true
  | _ => false

def isUserLoggedIn : FtpResponse → Bool
  | .UserLoggedIn _ => true
  | _ => false

def isCommandOkay : FtpResponse → Bool
  | .CommandOkay _ => true
  | _ => false

def isDirActionOkay : FtpResponse → Bool
  | .DirectoryActionOkay _ => true
  | _ => false

def isEnteringPassive : FtpResponse → Bool
  | .EnteringPassiveMode _ => true
  | _ => false

def isFileStatusOkay : FtpResponse → Bool
  | .FileStatusOkay _ => true
  | _ => false

def isQuitAccepted : FtpResponse → Bool
  | .ClosingControlConnection _ => true
  | .ClosingDataConnection _ => true
  | _ => false

/-- The fix-up never changes which variant a response is. -/
theorem fixupResponse_shape (host : Ipv4) (r : FtpResponse) :
    (∃ a a', r = .EnteringPassiveMode a ∧
      fixupResponse host r = .EnteringPassiveMode a') ∨
    fixupResponse host r = r := by
  cases r with
  | EnteringPassiveMode addr =>
    left
    by_cases h : addr.isUnspecified
    · exact ⟨addr, ⟨host.a, host.b, host.c, host.d, addr.port⟩, rfl,
        by simp [fixupResponse, h]⟩
    · exact ⟨addr, addr, rfl, by simp [fixupResponse, h]⟩
  | _ => right; rfl

/-- The fix-up maps a 227 response to a 227 response. -/
theorem fixupResponse_epm (host : Ipv4) (addr : SocketAddrV4) :
    ∃ a', fixupResponse host (.EnteringPassiveMode addr)
      = .EnteringPassiveMode a' := by
  by_cases h : addr.isUnspecified
  · exact ⟨⟨host.a, host.b, host.c, host.d, addr.port⟩, by simp [fixupResponse, h]⟩
  · exact ⟨addr, by simp [fixupResponse, h]⟩

theorem fixupResponse_userok (host : Ipv4) (m : List Char) :
    fixupResponse host (.UserNameOkayNeedPassword m) = .UserNameOkayNeedPassword m := rfl

theorem fixupResponse_loggedin (host : Ipv4) (m : List Char) :
    fixupResponse host (.UserLoggedIn m) = .UserLoggedIn m := rfl

theorem fixupResponse_cmdok (host : Ipv4) (m : List Char) :
    fixupResponse host (.CommandOkay m) = .CommandOkay m := rfl

theorem fixupResponse_dirok (host : Ipv4) (m : List Char) :
    fixupResponse host (.DirectoryActionOkay m) = .DirectoryActionOkay m := rfl

theorem fixupResponse_pasvok (host : Ipv4) :
    fixupResponse host (.EnteringPassiveMode ⟨1, 2, 3, 4, 5⟩)
      = .EnteringPassiveMode ⟨1, 2, 3, 4, 5⟩ := by
  simp [fixupResponse, SocketAddrV4.isUnspecified]

/-! ### C8: PASV NAT fix-up -/

/-- **C8.** For every 227 response processed by the client, if the parsed
socket address is unspecified (`0.0.0.0`) the caller receives the control
connection's server IP with the advertised port; a 227 response with a
specified IP passes through unchanged. -/
theorem c8_pasv_nat_fixup (host : Ipv4) (cmd : FtpRequest) (p : Nat)
    (addr : SocketAddrV4) (rest : List FtpResponse)
    (hspec : ¬ addr.isUnspecified) :
    send_command host cmd (.EnteringPassiveMode ⟨0, 0, 0, 0, p⟩ :: rest)
      = .ok (.EnteringPassiveMode ⟨host.a, host.b, host.c, host.d, p⟩, rest) ∧
    send_command host cmd (.EnteringPassiveMode addr :: rest)
      = .ok (.EnteringPassiveMode addr, rest) := by
  constructor
  · simp [send_command, fixupResponse, SocketAddrV4.isUnspecified]
  · simp [send_command, fixupResponse, hspec]

/-- **C8 (witness).** The spec's example: `227 (0,0,0,0,10,20)` on a control
connection to `192.0.2.5` is delivered as `192.0.2.5:2580`; a specified
address `10.0.0.1:2580` passes through. -/
theorem c8_pasv_nat_fixup_witness :
    send_command ⟨192, 0, 2, 5⟩ .EnterPassiveMode
        [.EnteringPassiveMode ⟨0, 0, 0, 0, 10 * 256 + 20⟩]
      = .ok (.EnteringPassiveMode ⟨192, 0, 2, 5, 10 * 256 + 20⟩, []) ∧
    send_command ⟨192, 0, 2, 5⟩ .EnterPassiveMode
        [.EnteringPassiveMode ⟨10, 0, 0, 1, 2580⟩]
      = .ok (.EnteringPassiveMode ⟨10, 0, 0, 1, 2580⟩, []) :=
  c8_pasv_nat_fixup ⟨192, 0, 2, 5⟩ .EnterPassiveMode (10 * 256 + 20)
    ⟨10, 0, 0, 1, 2580⟩ [] (by decide)

/-! ### C4: FTPS state-machine strictness (corrected) -/

/-- **C4 (counterexample).** The banner step is *not* strict: a response
with code 200 instead of the expected 220 does not produce a protocol
error — `authenticate` records no welcome message and completes
successfully. -/
theorem c4_ftps_strictness_counterexample :
    isServiceReady (FtpResponse.CommandOkay []) = false ∧
    authenticate ⟨127, 0, 0, 1⟩ "u".data "p".data
        [.CommandOkay [], .UserNameOkayNeedPassword [], .UserLoggedIn [],
          .CommandOkay [], .CommandOkay []]
      = .ok (none, []) :=
  ⟨by decide, by decide⟩

/-- **C4 (amended).** At every step *after* the server banner, a response of
any shape other than the expected one (USER 331, PASS 230, PBSZ 200,
PROT 200, PWD 257, PASV 227, LIST 150) makes the operation return a
protocol error; the banner step tolerates any response (it records no
welcome message and proceeds); QUIT accepts both 221 and 226 and errors on
anything else. -/
theorem c4_ftps_state_machine (host : Ipv4) (username password dir : List Char)
    (currentYear : Nat) (dls : List (List Char))
    (rb ru rp rz rt rw rv rl rq : FtpResponse) (rs : List FtpResponse)
    (hu : isUserNameOkay ru = false) (hp : isUserLoggedIn rp = false)
    (hz : isCommandOkay rz = false) (ht : isCommandOkay rt = false)
    (hw : isDirActionOkay rw = false) (hv : isEnteringPassive rv = false)
    (hl : isFileStatusOkay rl = false) (hq : isQuitAccepted rq = false) :
    (authenticate host username password
        (rb :: [.UserNameOkayNeedPassword [], .UserLoggedIn [],
          .CommandOkay [], .CommandOkay []])).isOk = true ∧
    authenticate host username password (.ServiceReady [] :: ru :: rs)
      = .error (.ioError (.invalidData "Invalid username response")) ∧
    authenticate host username password
        (.ServiceReady [] :: .UserNameOkayNeedPassword [] :: rp :: rs)
      = .error (.ioError (.invalidData "Invalid password response")) ∧
    authenticate host username password
        (.ServiceReady [] :: .UserNameOkayNeedPassword [] :: .UserLoggedIn []
          :: rz :: rs)
      = .error (.ioError (.invalidData "Invalid PBSZ response")) ∧
    authenticate host username password
        (.ServiceReady [] :: .UserNameOkayNeedPassword [] :: .UserLoggedIn []
          :: .CommandOkay [] :: rt :: rs)
      = .error (.ioError (.invalidData "Invalid PROT response")) ∧
    pwd host (rw :: rs) = .error (.ioError (.invalidData "Invalid PWD response")) ∧
    list_files host dir currentYear (.DirectoryActionOkay [] :: rv :: rs) dls
      = .error (.ioError (.invalidData "Invalid passive mode response")) ∧
    list_files host dir currentYear
        (.DirectoryActionOkay [] :: .EnteringPassiveMode ⟨1, 2, 3, 4, 5⟩
          :: rl :: rs) dls
      = .error (.ioError (.invalidData "Invalid LIST response")) ∧
    quit host (rq :: rs) = .error (.ioError (.invalidData "Invalid QUIT response")) ∧
    quit host (.ClosingControlConnection [] :: rs) = .ok ((), rs) ∧
    quit host (.ClosingDataConnection [] :: rs) = .ok ((), rs) := by
  refine ⟨?_, ?_, ?_, ?_, ?_, ?_, ?_, ?_, ?_, ?_, ?_⟩
  · cases rb <;> rfl
  · rcases fixupResponse_shape host ru with ⟨a1, a2, hre, hfix⟩ | hfix
    · subst hre
      simp only [authenticate, pwd, quit, send_command, hfix,
        fixupResponse_userok, fixupResponse_loggedin, fixupResponse_cmdok]
    · simp only [authenticate, pwd, quit, send_command, hfix,
        fixupResponse_userok, fixupResponse_loggedin, fixupResponse_cmdok]
      cases ru <;> first | rfl | (simp [isUserNameOkay] at hu)
  · rcases fixupResponse_shape host rp with ⟨a1, a2, hre, hfix⟩ | hfix
    · subst hre
      simp only [authenticate, pwd, quit, send_command, hfix,
        fixupResponse_userok, fixupResponse_loggedin, fixupResponse_cmdok]
    · simp only [authenticate, pwd, quit, send_command, hfix,
        fixupResponse_userok, fixupResponse_loggedin, fixupResponse_cmdok]
      cases rp <;> first | rfl | (simp [isUserLoggedIn] at hp)
  · rcases fixupResponse_shape host rz with ⟨a1, a2, hre, hfix⟩ | hfix
    · subst hre
      simp only [authenticate, pwd, quit, send_command, hfix,
        fixupResponse_userok, fixupResponse_loggedin, fixupResponse_cmdok]
    · simp only [authenticate, pwd, quit, send_command, hfix,
        fixupResponse_userok, fixupResponse_loggedin, fixupResponse_cmdok]
      cases rz <;> first | rfl | (simp [isCommandOkay] at hz)
  · rcases fixupResponse_shape host rt with ⟨a1, a2, hre, hfix⟩ | hfix
    · subst hre
      simp only [authenticate, pwd, quit, send_command, hfix,
        fixupResponse_userok, fixupResponse_loggedin, fixupResponse_cmdok]
    · simp only [authenticate, pwd, quit, send_command, hfix,
        fixupResponse_userok, fixupResponse_loggedin, fixupResponse_cmdok]
      cases rt <;> first | rfl | (simp [isCommandOkay] at ht)
  · rcases fixupResponse_shape host rw with ⟨a1, a2, hre, hfix⟩ | hfix
    · subst hre
      simp only [pwd, quit, send_command, hfix]
    · simp only [pwd, quit, send_command, hfix]
      cases rw <;> first | rfl | (simp [isDirActionOkay] at hw)
  · rcases fixupResponse_shape host rv with ⟨a1, a2, hre, hfix⟩ | hfix
    · subst hre
      simp [isEnteringPassive] at hv
    · simp only [list_files, pwd, quit, send_command, hfix,
        fixupResponse_dirok, fixupResponse_pasvok]
      cases rv <;> first | rfl | (simp [isEnteringPassive] at hv)
  · rcases fixupResponse_shape host rl with ⟨a1, a2, hre, hfix⟩ | hfix
    · subst hre
      simp only [list_files, pwd, quit, send_command, hfix,
        fixupResponse_dirok, fixupResponse_pasvok]
    · simp only [list_files, pwd, quit, send_command, hfix,
        fixupResponse_dirok, fixupResponse_pasvok]
      cases rl <;> first | rfl | (simp [isFileStatusOkay] at hl)
  · rcases fixupResponse_shape host rq with ⟨a1, a2, hre, hfix⟩ | hfix
    · subst hre
      simp only [quit, send_command, hfix]
    · simp only [quit, send_command, hfix]
      cases rq <;> first | rfl | (simp [isQuitAccepted] at hq)
  · rfl
  · rfl

/-- **C4 (witness).** The amended state machine exercised with `Other 999`
responses at every strict step. -/
theorem c4_ftps_state_machine_witness :
    (authenticate ⟨127, 0, 0, 1⟩ "u".data "p".data
        (.Other 999 [] :: [.UserNameOkayNeedPassword [], .UserLoggedIn [],
          .CommandOkay [], .CommandOkay []])).isOk = true ∧
    authenticate ⟨127, 0, 0, 1⟩ "u".data "p".data
        (.ServiceReady [] :: .Other 999 [] :: [])
      = .error (.ioError (.invalidData "Invalid username response")) ∧
    authenticate ⟨127, 0, 0, 1⟩ "u".data "p".data
        (.ServiceReady [] :: .UserNameOkayNeedPassword [] :: .Other 999 [] :: [])
      = .error (.ioError (.invalidData "Invalid password response")) ∧
    authenticate ⟨127, 0, 0, 1⟩ "u".data "p".data
        (.ServiceReady [] :: .UserNameOkayNeedPassword [] :: .UserLoggedIn []
          :: .Other 999 [] :: [])
      = .error (.ioError (.invalidData "Invalid PBSZ response")) ∧
    authenticate ⟨127, 0, 0, 1⟩ "u".data "p".data
        (.ServiceReady [] :: .UserNameOkayNeedPassword [] :: .UserLoggedIn []
          :: .CommandOkay [] :: .Other 999 [] :: [])
      = .error (.ioError (.invalidData "Invalid PROT response")) ∧
    pwd ⟨127, 0, 0, 1⟩ (.Other 999 [] :: [])
      = .error (.ioError (.invalidData "Invalid PWD response")) ∧
    list_files ⟨127, 0, 0, 1⟩ "/".data 2026
        (.DirectoryActionOkay [] :: .Other 999 [] :: []) []
      = .error (.ioError (.invalidData "Invalid passive mode response")) ∧
    list_files ⟨127, 0, 0, 1⟩ "/".data 2026
        (.DirectoryActionOkay [] :: .EnteringPassiveMode ⟨1, 2, 3, 4, 5⟩
          :: .Other 999 [] :: []) []
      = .error (.ioError (.invalidData "Invalid LIST response")) ∧
    quit ⟨127, 0, 0, 1⟩ (.Other 999 [] :: [])
      = .error (.ioError (.invalidData "Invalid QUIT response")) ∧
    quit ⟨127, 0, 0, 1⟩ (.ClosingControlConnection [] :: []) = .ok ((), []) ∧
    quit ⟨127, 0, 0, 1⟩ (.ClosingDataConnection [] :: []) = .ok ((), []) :=
  c4_ftps_state_machine ⟨127, 0, 0, 1⟩ "u".data "p".data "/".data 2026 []
    (.Other 999 []) (.Other 999 []) (.Other 999 []) (.Other 999 [])
    (.Other 999 []) (.Other 999 []) (.Other 999 []) (.Other 999 [])
    (.Other 999 []) []
    (by decide) (by decide) (by decide) (by decide)
    (by decide) (by decide) (by decide) (by decide)

/-! ### C9: LIST-line metadata parsing (corrected) -/

/-- **C9 (counterexample).** A line with 9 whitespace-delimited tokens whose
first token is a 10-byte mode string can still fail to parse: the size token
`"xx"` is not a u64, so the claim's "parsing succeeds" is false. -/
theorem c9_file_metadata_counterexample :
    (splitWs "drw-rw-rw- 1 u g xx Jan 01 1980 f".data).length = 9 ∧
    utf8Len ((splitWs "drw-rw-rw- 1 u g xx Jan 01 1980 f".data).getD 0 []) = 10 ∧
    FileMetadata.from_str 2026 "drw-rw-rw- 1 u g xx Jan 01 1980 f".data
      = .error "Invalid size format" :=
  ⟨by decide, by decide, by decide⟩

/-- **C9 (amended).** For every LIST line with at least 9
whitespace-delimited tokens whose first token is a 10-byte mode string,
*and* whose size token parses as a u64, day token parses as a u32, and date
fields parse under the chrono format, parsing succeeds with: directory true
iff character 0 is `d`; readable/writable/executable true iff the
corresponding character is `r`/`w`/`x` in all three triads; size equal to
token 4 as a u64; filename equal to tokens 8.. joined with single spaces;
and the octal projection sets 0o444/0o222/0o111 for
readable/writable/executable. -/
theorem c9_file_metadata (currentYear size day : Nat) (line : List Char)
    (dt : DateTime)
    (hlen : 9 ≤ (splitWs line).length)
    (hmode : utf8Len ((splitWs line).getD 0 []) = 10)
    (hsize : parseU64 ((splitWs line).getD 4 []) = some size)
    (hday : parseU32 ((splitWs line).getD 6 []) = some day)
    (hdate : parseDateTimeYbdHM (dateInput currentYear day
      ((splitWs line).getD 5 []) ((splitWs line).getD 7 [])) = some dt) :
    FileMetadata.from_str currentYear line = .ok {
      chmod := {
        directory := ((splitWs line).getD 0 []).get? 0 == some 'd'
        readable := ((splitWs line).getD 0 []).get? 1 == some 'r'
          && ((splitWs line).getD 0 []).get? 4 == some 'r'
          && ((splitWs line).getD 0 []).get? 7 == some 'r'
        writable := ((splitWs line).getD 0 []).get? 2 == some 'w'
          && ((splitWs line).getD 0 []).get? 5 == some 'w'
          && ((splitWs line).getD 0 []).get? 8 == some 'w'
        executable := ((splitWs line).getD 0 []).get? 3 == some 'x'
          && ((splitWs line).getD 0 []).get? 6 == some 'x'
          && ((splitWs line).getD 0 []).get? 9 == some 'x' }
      user := (splitWs line).getD 2 []
      group := (splitWs line).getD 3 []
      size := size
      date := dt
      filename := joinSpace ((splitWs line).drop 8) } ∧
    (∀ P : Permissions, P.to_octal =
      (if P.readable then 0o444 else 0) + (if P.writable then 0o222 else 0)
        + (if P.executable then 0o111 else 0)) := by
  constructor
  · have hchmod : Permissions.from_chmod ((splitWs line).getD 0 []) = .ok {
        directory := ((splitWs line).getD 0 []).get? 0 == some 'd'
        readable := ((splitWs line).getD 0 []).get? 1 == some 'r'
          && ((splitWs line).getD 0 []).get? 4 == some 'r'
          && ((splitWs line).getD 0 []).get? 7 == some 'r'
        writable := ((splitWs line).getD 0 []).get? 2 == some 'w'
          && ((splitWs line).getD 0 []).get? 5 == some 'w'
          && ((splitWs line).getD 0 []).get? 8 == some 'w'
        executable := ((splitWs line).getD 0 []).get? 3 == some 'x'
          && ((splitWs line).getD 0 []).get? 6 == some 'x'
          && ((splitWs line).getD 0 []).get? 9 == some 'x' } := by
      rw [Permissions.from_chmod, if_neg (fun hne => hne hmode)]
    simp only [FileMetadata.from_str]
    rw [if_neg (by omega)]
    simp only [hchmod, hsize, hday]
    by_cases hc : ((splitWs line).getD 7 []).contains ':' = true
    · rw [if_pos hc]
      simp only [hdate]
    · rw [if_neg hc]
      simp only [hdate]
  · intro P
    rcases P with ⟨d0, r0, w0, x0⟩
    cases d0 <;> cases r0 <;> cases w0 <;> cases x0 <;> decide

/-- **C9 (witness).** The amended theorem at the spec's test vector
`"drw-rw-rw-   1 usr1  grp1           0 Jan 01 1980 foo bar"`. -/
theorem c9_file_metadata_witness :
    FileMetadata.from_str 2026
        "drw-rw-rw-   1 usr1  grp1           0 Jan 01 1980 foo bar".data = .ok {
      chmod := {
        directory := ((splitWs "drw-rw-rw-   1 usr1  grp1           0 Jan 01 1980 foo bar".data).getD 0 []).get? 0 == some 'd'
        readable := ((splitWs "drw-rw-rw-   1 usr1  grp1           0 Jan 01 1980 foo bar".data).getD 0 []).get? 1 == some 'r'
          && ((splitWs "drw-rw-rw-   1 usr1  grp1           0 Jan 01 1980 foo bar".data).getD 0 []).get? 4 == some 'r'
          && ((splitWs "drw-rw-rw-   1 usr1  grp1           0 Jan 01 1980 foo bar".data).getD 0 []).get? 7 == some 'r'
        writable := ((splitWs "drw-rw-rw-   1 usr1  grp1           0 Jan 01 1980 foo bar".data).getD 0 []).get? 2 == some 'w'
          && ((splitWs "drw-rw-rw-   1 usr1  grp1           0 Jan 01 1980 foo bar".data).getD 0 []).get? 5 == some 'w'
          && ((splitWs "drw-rw-rw-   1 usr1  grp1           0 Jan 01 1980 foo bar".data).getD 0 []).get? 8 == some 'w'
        executable := ((splitWs "drw-rw-rw-   1 usr1  grp1           0 Jan 01 1980 foo bar".data).getD 0 []).get? 3 == some 'x'
          && ((splitWs "drw-rw-rw-   1 usr1  grp1           0 Jan 01 1980 foo bar".data).getD 0 []).get? 6 == some 'x'
          && ((splitWs "drw-rw-rw-   1 usr1  grp1           0 Jan 01 1980 foo bar".data).getD 0 []).get? 9 == some 'x' }
      user := (splitWs "drw-rw-rw-   1 usr1  grp1           0 Jan 01 1980 foo bar".data).getD 2 []
      group := (splitWs "drw-rw-rw-   1 usr1  grp1           0 Jan 01 1980 foo bar".data).getD 3 []
      size := 0
      date := ⟨1980, 1, 1, 0, 0⟩
      filename := joinSpace ((splitWs "drw-rw-rw-   1 usr1  grp1           0 Jan 01 1980 foo bar".data).drop 8) } ∧
    (∀ P : Permissions, P.to_octal =
      (if P.readable then 0o444 else 0) + (if P.writable then 0o222 else 0)
        + (if P.executable then 0o111 else 0)) :=
  c9_file_metadata 2026 0 1
    "drw-rw-rw-   1 usr1  grp1           0 Jan 01 1980 foo bar".data
    ⟨1980, 1, 1, 0, 0⟩ (by decide) (by decide) (by decide) (by decide) (by decide)

/-! ## MQTT correlation core (`src/mqtt.rs`, `src/mqtt/message*.rs`)

The reply data model (`Message` and its three payloads) is embedded with
`SmolStr → String`, `u64`/`u32`/`u8 → Nat`, and `f64 → Float`.  The inflight
table (`HashMap<SmolStr, oneshot::Sender<Message>>`) is an association list
with pairwise-distinct keys whose values name the waiting one-shot senders;
delivery through a sender is recorded as an explicit effect. -/

inductive LedNode
  | ChamberLight
deriving DecidableEq

inductive LedMode
  | On
  | Off
deriving DecidableEq

structure LedCtrl where
  led_node : LedNode
  led_mode : LedMode
  led_on_time : Nat
  led_off_time : Nat
  loop_times : Nat
  interval_time : Nat
deriving DecidableEq

/-- `message::system::System`. -/
structure System where
  sequence_id : String
  command : LedCtrl
  reason : String
  result : String
deriving DecidableEq

/-- `message::info::Module`. -/
structure Module where
  name : String
  project_name : String
  sw_ver : String
  hw_ver : String
  sn : String
  flag : Nat
  loader_ver : Option String
  ota_ver : Option String
deriving DecidableEq

/-- `message::info::Info`. -/
structure Info where
  command : String
  sequence_id : String
  module : List Module
  result : String
  reason : String
deriving DecidableEq

/-- `message::print::Print`. -/
structure Print where
  bed_temper : Option Float
  nozzle_temper : Option Float
  command : String
  msg : Nat
  sequence_id : String

/-- `Message`: the root of all MQTT reply messages. -/
inductive Message
  | Print (print : Bambu.Print)
  | Info (info : Bambu.Info)
  | System (system : Bambu.System)

/-- `Message::sequence_id`. -/
def Message.sequence_id : Message → String
  | .Print p => p.sequence_id
  | .Info i => i.sequence_id
  | .System s => s.sequence_id

/-- `HashMap::remove`: the removed sender (if the key was present) and the
table afterwards. -/
def removeEntry (table : List (String × Nat)) (k : String) :
    Option Nat × List (String × Nat) :=
  match table with
  | [] => (none, [])
  | (k', w) :: rest =>
    if k' = k then (some w, rest)
    else
      let r := removeEntry rest k
      (r.1, (k', w) :: r.2)

/-- What the pump does with one `PUBLISH` payload. -/
inductive PumpEffect
  | droppedPush (print : Bambu.Print)
  | delivered (waiter : Nat) (m : Message)
  | unknownSeq (m : Message)
  | decodeFailed

/-- The non-push branch of the pump: remove the inflight entry for the
message's sequence id and deliver through it, or log an unknown id. -/
def deliverTo (table : List (String × Nat)) (msg : Message) :
    List (String × Nat) × PumpEffect :=
  match removeEntry table msg.sequence_id with
  | (some w, t') => (t', .delivered w msg)
  | (none, _) => (table, .unknownSeq msg)

/-- The `Packet::Publish` arm of `MqttClient::start`'s event pump: a decoded
`print` message with `command == "push_status"` is logged and dropped;
any other decoded message is routed through the inflight table; decode
failures are logged. -/
def handle_publish (table : List (String × Nat)) (decoded : Option Message) :
    List (String × Nat) × PumpEffect :=
  match decoded with
  | none => (table, .decodeFailed)
  | some msg =>
    match msg with
    | .Print p =>
      if p.command = "push_status" then (table, .droppedPush p)
      else deliverTo table (.Print p)
    | _ => deliverTo table msg

theorem removeEntry_mem {table : List (String × Nat)} {S : String} {w : Nat}
    (hnodup : (table.map Prod.fst).Nodup) (hmem : (S, w) ∈ table) :
    (removeEntry table S).1 = some w ∧
      S ∉ ((removeEntry table S).2.map Prod.fst) := by
  induction table with
  | nil => simp at hmem
  | cons e rest ih =>
    obtain ⟨k', w'⟩ := e
    rw [List.map_cons, List.nodup_cons] at hnodup
    rcases List.mem_cons.1 hmem with heq | hmem'
    · injection heq with h1 h2
      subst h1
      subst h2
      rw [removeEntry, if_pos rfl]
      exact ⟨rfl, hnodup.1⟩
    · by_cases hk : k' = S
      · subst hk
        exact absurd (List.mem_map.2 ⟨(k', w), hmem', rfl⟩) hnodup.1
      · rw [removeEntry, if_neg hk]
        obtain ⟨h1, h2⟩ := ih hnodup.2 hmem'
        refine ⟨h1, ?_⟩
        rw [List.map_cons]
        intro hm
        rcases List.mem_cons.1 hm with h3 | h3
        · exact hk h3.symm
        · exact h2 h3

/-- **C2.** If the inflight table holds an entry for sequence id `S` (keys
are unique), then a published payload decoding to an `Info`, `System`, or
non-`push_status` `Print` message with sequence id `S` is delivered exactly
as decoded to the waiter registered under `S`, and the entry for `S` is
gone afterwards; a decoded `print` message with `command == "push_status"`
is dropped and leaves the table unchanged, whatever its sequence id. -/
theorem c2_mqtt_reply_routing (table : List (String × Nat)) (S : String)
    (w : Nat) (msg : Message) (q : Bambu.Print)
    (hnodup : (table.map Prod.fst).Nodup)
    (hmem : (S, w) ∈ table)
    (hseq : msg.sequence_id = S)
    (hnotpush : ∀ p, msg = .Print p → ¬ p.command = "push_status")
    (hq : q.command = "push_status") :
    ((handle_publish table (some msg)).2 = .delivered w msg ∧
      S ∉ ((handle_publish table (some msg)).1.map Prod.fst)) ∧
    handle_publish table (some (.Print q)) = (table, .droppedPush q) := by
  have hspec := removeEntry_mem hnodup hmem
  have hdel : deliverTo table msg = ((removeEntry table S).2, .delivered w msg) := by
    rw [deliverTo, hseq]
    rcases hre : removeEntry table S with ⟨o, t'⟩
    rw [hre] at hspec
    simp only at hspec
    rw [hspec.1]
  constructor
  · have hhp : handle_publish table (some msg) = deliverTo table msg := by
      cases msg with
      | Print p =>
        rw [handle_publish, if_neg (hnotpush p rfl)]
      | Info i => rfl
      | System s => rfl
    rw [hhp, hdel]
    exact ⟨rfl, hspec.2⟩
  · rw [handle_publish, if_pos hq]

/-- **C2 (witness).** A table holding waiter `5` for id `"1"`, the decoded
`system` reply with sequence id `"1"`, and an unsolicited
`print`/`push_status` with sequence id `"7"`. -/
theorem c2_mqtt_reply_routing_witness :
    ((handle_publish [("1", 5)] (some (.System
        ⟨"1", ⟨.ChamberLight, .Off, 500, 500, 0, 0⟩, "success", "success"⟩))).2
      = .delivered 5 (.System
        ⟨"1", ⟨.ChamberLight, .Off, 500, 500, 0, 0⟩, "success", "success"⟩) ∧
      "1" ∉ ((handle_publish [("1", 5)] (some (.System
        ⟨"1", ⟨.ChamberLight, .Off, 500, 500, 0, 0⟩, "success", "success"⟩))).1.map
          Prod.fst)) ∧
    handle_publish [("1", 5)] (some (.Print ⟨none, none, "push_status", 0, "7"⟩))
      = ([("1", 5)], .droppedPush ⟨none, none, "push_status", 0, "7"⟩) :=
  c2_mqtt_reply_routing [("1", 5)] "1" 5
    (.System ⟨"1", ⟨.ChamberLight, .Off, 500, 500, 0, 0⟩, "success", "success"⟩)
    ⟨none, none, "push_status", 0, "7"⟩
    (by decide) (by decide) rfl (fun p h => Message.noConfusion h) rfl

end Bambu
